import Mathlib

/-! # tzcon: a verification development of `main.go`

`main.go` is glue over the Go standard library (`flag`, `strings`, `time`).
The development has three layers.

* `Runtime` collects the library entry points `main.go` calls.  The functions
  of `main.go` (`getLocationFromAbbreviation`, `parsePartialDate`, `normalize`,
  `buildOutput`) are embedded over an arbitrary `Runtime`; besides their Go
  result they return the list of library calls they made, in program order.
* `GoTime` is a model of the part of Go's `time` package that the seven
  layouts of `parsePartialDate` exercise (`nextStdChunk`, `skip`, `getnum`,
  `atoi`, `parseNanoseconds`, the `parse` loop, `daysIn`, `Date`,
  `LoadLocation`), together with `goRuntime`, the `Runtime` built from it.
* The theorems.

Conventions.  A Go `string` is a Lean `String` (so only valid UTF-8 is
modelled) and `len(s)` is `String.utf8ByteSize`.  Go's `int`/`int64` are `Int`;
Go's `/` and `%` are `Int.tdiv` and `Int.tmod`; where the library relies on
64-bit wrap-around (`time.Date`) the wrap is explicit.
-/

namespace Tzcon

/-! ## The command line -/

/-- The five flag variables of `main.go` after `flag.Parse()`. -/
structure Flags where
  unix : Int
  unixMilli : Int
  unixMicro : Int
  in_ : String
  timezone : String

/-- The flag defaults declared in the `var` block. -/
def Flags.defaults : Flags :=
  { unix := 0, unixMilli := 0, unixMicro := 0, in_ := "", timezone := "UTC" }

/-! ## The library interface -/

/-- The library entry points used by `main.go`.  `Loc` stands for
`*time.Location`, `Time` for `time.Time`; a library `error` is kept as its
message. -/
structure Runtime (Loc Time : Type) where
  /-- `unicode.To(unicode.UpperCase, r)`, consulted for runes above `MaxASCII`. -/
  upperCase : Char → Char
  /-- `time.Now()`. -/
  now : Time
  /-- `time.LoadLocation(name)`. -/
  loadLocation : String → Except String Loc
  /-- `time.ParseInLocation(layout, value, loc)`. -/
  parseInLocation : String → String → Loc → Except String Time
  /-- `t.Unix()`. -/
  timeUnix : Time → Int
  /-- `time.Unix(sec, 0)`. -/
  unixTime : Int → Time
  /-- `t.In(loc)`. -/
  timeIn : Time → Loc → Time
  /-- `t.String()`, which is what the verb `%s` prints for a `time.Time`. -/
  timeString : Time → String

/-- One call into the clock, the zone database or the layout parser. -/
inductive Call (Loc : Type) where
  | now : Call Loc
  | loadLocation (name : String) : Call Loc
  | parseInLocation (layout value : String) (loc : Loc) : Call Loc

/-- The errors `main.go` can return.  The first three are built by
`fmt.Errorf` at lines 31, 35 and 58; `library` is a library error handed on
unchanged (lines 90, 94, 98). -/
inductive Error where
  /-- Line 31, "timezone abbreviation '%s' not found": UnknownAbbreviation. -/
  | abbreviationNotFound (abbr : String) : Error
  /-- Line 35, "failed to load location for '%s': %w": ZoneLoadError. -/
  | loadLocationFailed (tz : String) (cause : String) : Error
  /-- Line 58, "invalid date format: '%s'": InvalidDateFormat. -/
  | invalidDateFormat (s : String) : Error
  /-- A library error returned as is. -/
  | library (cause : String) : Error

/-! ## `strings.ToUpper` -/

/-- The ASCII case shift `c -= 'a' - 'A'` applied to the letters `a`..`z`. -/
def upperASCII (c : Char) : Char :=
  if 97 ≤ c.toNat ∧ c.toNat ≤ 122 then Char.ofNat (c.toNat - 32) else c

/-- `unicode.ToUpper`: ASCII is shifted in place, other runes go through the
case table. -/
def unicodeToUpper (upperCase : Char → Char) (r : Char) : Char :=
  if r.toNat ≤ 0x7F then upperASCII r else upperCase r

/-- `strings.ToUpper`: an ASCII-only string is returned unchanged when it has no
lower-case letter and shifted byte by byte otherwise; any other string is
mapped rune by rune with `unicode.ToUpper`. -/
def stringsToUpper (upperCase : Char → Char) (s : String) : String :=
  if s.data.all (fun c => decide (c.toNat < 0x80)) then
    if s.data.any (fun c => decide (97 ≤ c.toNat ∧ c.toNat ≤ 122)) then
      String.mk (s.data.map upperASCII)
    else s
  else String.mk (s.data.map (unicodeToUpper upperCase))

/-! ## The functions of `main.go` -/

/-- The map literal of `getLocationFromAbbreviation`. -/
def timezoneMap : List (String × String) :=
  [ ("JST", "Asia/Tokyo"),
    ("UTC", "UTC"),
    ("PT", "America/Los_Angeles"),
    ("PST", "America/Los_Angeles"),
    ("PDT", "America/Los_Angeles"),
    ("IST", "Asia/Kolkata") ]

/-- `getLocationFromAbbreviation` (lines 19-38). -/
def getLocationFromAbbreviation {Loc Time : Type} (rt : Runtime Loc Time) (abbr : String) :
    Except Error Loc × List (Call Loc) :=
  let abbr := stringsToUpper rt.upperCase abbr
  match timezoneMap.lookup abbr with
  | none => (.error (.abbreviationNotFound abbr), [])
  | some tz =>
    match rt.loadLocation tz with
    | .error err => (.error (.loadLocationFailed tz err), [.loadLocation tz])
    | .ok location => (.ok location, [.loadLocation tz])

/-- The slice literal `formats` of `parsePartialDate`. -/
def formats : List String :=
  [ "2006",
    "2006-01",
    "2006-01-02",
    "2006-01-02 15",
    "2006-01-02 15:04",
    "2006-01-02 15:04:05",
    "2006-01-02 15:04:05.000" ]

/-- The `for _, format := range formats` loop of `parsePartialDate`, run over the
formats still to be visited; `log` holds the parse calls made so far. -/
def parsePartialDateLoop {Loc Time : Type} (rt : Runtime Loc Time) (s : String) (location : Loc) :
    List String → List (Call Loc) → Except Error Int × List (Call Loc)
  | [], log => (.error (.invalidDateFormat s), log)
  | format :: rest, log =>
    if s.utf8ByteSize = format.utf8ByteSize then
      match rt.parseInLocation format s location with
      | .ok t => (.ok (rt.timeUnix t), log ++ [.parseInLocation format s location])
      | .error _ =>
        parsePartialDateLoop rt s location rest (log ++ [.parseInLocation format s location])
    else parsePartialDateLoop rt s location rest log

/-- `parsePartialDate` (lines 40-59). -/
def parsePartialDate {Loc Time : Type} (rt : Runtime Loc Time) (s : String) (location : Loc) :
    Except Error Int × List (Call Loc) :=
  parsePartialDateLoop rt s location formats []

/-- `normalize` (lines 62-85), reading the flag variables from `f`. -/
def normalize {Loc Time : Type} (rt : Runtime Loc Time) (f : Flags) :
    Except Error Int × List (Call Loc) :=
  if f.in_ = "" then (.ok (rt.timeUnix rt.now), [.now])
  else if f.unix ≠ 0 then (.ok f.unix, [])
  else if f.unixMilli ≠ 0 then (.ok (f.unixMilli.tdiv 1000), [])
  else if f.unixMicro ≠ 0 then (.ok (f.unixMicro.tdiv 1000000), [])
  else
    match getLocationFromAbbreviation rt f.timezone with
    | (.error err, log) => (.error err, log)
    | (.ok location, log) =>
      match parsePartialDate rt f.in_ location with
      | (.error err, log2) => (.error err, log ++ log2)
      | (.ok t, log2) => (.ok t, log ++ log2)

/-- The verb `%d` applied to an `int64`: an optional minus sign and the decimal
digits. -/
def formatInt (n : Int) : String := toString n

/-- `buildOutput` (lines 87-103). -/
def buildOutput {Loc Time : Type} (rt : Runtime Loc Time) (unixTimestamp : Int) :
    Except Error String × List (Call Loc) :=
  match rt.loadLocation "UTC" with
  | .error err => (.error (.library err), [.loadLocation "UTC"])
  | .ok utc =>
    match rt.loadLocation "America/Los_Angeles" with
    | .error err =>
      (.error (.library err), [.loadLocation "UTC", .loadLocation "America/Los_Angeles"])
    | .ok pt =>
      match rt.loadLocation "Asia/Tokyo" with
      | .error err =>
        (.error (.library err),
          [.loadLocation "UTC", .loadLocation "America/Los_Angeles", .loadLocation "Asia/Tokyo"])
      | .ok jst =>
        let t := rt.unixTime unixTimestamp
        let res := "Normalized: " ++ formatInt unixTimestamp ++ "\n"
          ++ rt.timeString (rt.timeIn t utc) ++ "\n"
          ++ rt.timeString (rt.timeIn t jst) ++ "\n"
          ++ rt.timeString (rt.timeIn t pt) ++ "\n"
        (.ok res,
          [.loadLocation "UTC", .loadLocation "America/Los_Angeles", .loadLocation "Asia/Tokyo"])

/-! ## A model of the part of Go's `time` package behind the seven layouts

The scanner follows `time/format.go` as of Go 1.17, the release from which a
comma may stand before a fraction of a second; `Date` and `daysSinceEpoch`
follow `time/time.go` as of Go 1.22 (later releases reach the same instant by
another computation).  The scanner of `time/format.go` works on bytes.  Here a
value is scanned rune by rune; the two agree on every valid UTF-8 string,
because each byte the parser accepts is ASCII and a multi-byte rune is rejected
wherever Go rejects its first byte.  A `*ParseError` is kept as its reason
only. -/

namespace GoTime

/-- A `*time.Location`, seen through `lookup(sec)`: the offset in force at Unix
time `sec` and the interval `[start, end)` of Unix times over which it is in
force. -/
structure Location where
  name : String
  lookup : Int → Int × Int × Int

/-- The 64-bit bounds `alpha` and `omega` of `zoneinfo.go`. -/
def alpha : Int := -(2 ^ 63)

/-- The largest Unix time, `1<<63 - 1`. -/
def omega : Int := 2 ^ 63 - 1

/-- The location `time.UTC`: offset 0 at all times. -/
def utcLoc : Location := { name := "UTC", lookup := fun _ => (0, alpha, omega) }

/-- A `time.Time` without monotonic reading: Unix seconds, nanoseconds, location. -/
structure Time where
  sec : Int
  nsec : Int
  loc : Location

/-- `Time.Unix`. -/
def Time.Unix (t : Time) : Int := t.sec

/-- `Time.In`. -/
def Time.In (t : Time) (loc : Location) : Time := { t with loc := loc }

/-- Conversion to `uint64`. -/
def toUint64 (x : Int) : Int := x % 2 ^ 64

/-- Conversion to `int64`, and the wrap-around of `int64` arithmetic. -/
def toInt64 (x : Int) : Int := (x + 2 ^ 63) % 2 ^ 64 - 2 ^ 63

/-! ### Layout chunks -/

/-- The `std` codes produced by the seven layouts. -/
inductive Std where
  | stdLongYear : Std
  | stdZeroMonth : Std
  | stdZeroDay : Std
  | stdHour : Std
  | stdZeroMinute : Std
  | stdZeroSecond : Std
  | stdFracSecond0 (digits : Nat) : Std
  deriving DecidableEq, Repr

/-- A digit byte, `'0' <= c && c <= '9'`. -/
def isDigitChar (c : Char) : Bool := decide (48 ≤ c.toNat ∧ c.toNat ≤ 57)

/-- `isDigit(s, i)`: position `i` exists and holds a digit. -/
def isDigit (s : List Char) (i : Nat) : Bool :=
  match s.get? i with
  | some c => isDigitChar c
  | none => false

/-- `nextStdChunk(layout)`: the literal prefix before the first `std` element,
that element (`none` for `std == 0`, when the whole layout is literal) and the
suffix after it.  Only the cases that fire on the seven layouts are present:
`2006`, `01`, `02`, `04`, `05`, `15`, and a `.` or `,` followed by a run of `0`
that is not followed by a digit. -/
def nextStdChunk : List Char → List Char × Option Std × List Char
  | [] => ([], none, [])
  | c :: rest =>
    let lit : List Char × Option Std × List Char :=
      ((c :: (nextStdChunk rest).1), (nextStdChunk rest).2.1, (nextStdChunk rest).2.2)
    if c = '2' then
      if rest.take 3 = ['0', '0', '6'] then ([], some .stdLongYear, rest.drop 3) else lit
    else if c = '0' then
      if rest.take 1 = ['1'] then ([], some .stdZeroMonth, rest.drop 1)
      else if rest.take 1 = ['2'] then ([], some .stdZeroDay, rest.drop 1)
      else if rest.take 1 = ['4'] then ([], some .stdZeroMinute, rest.drop 1)
      else if rest.take 1 = ['5'] then ([], some .stdZeroSecond, rest.drop 1)
      else lit
    else if c = '1' then
      if rest.take 1 = ['5'] then ([], some .stdHour, rest.drop 1) else lit
    else if c = '.' ∨ c = ',' then
      if rest.take 1 = ['0'] then
        let j := (rest.takeWhile (fun x => decide (x = '0'))).length
        if isDigit rest j then lit else ([], some (.stdFracSecond0 j), rest.drop j)
      else lit
    else lit

/-! ### Scanning helpers -/

/-- `cutspace`: drop the leading spaces. -/
def cutspace (s : List Char) : List Char := s.dropWhile (fun c => decide (c = ' '))

/-- `skip(value, prefix)`: remove `prefix` from `value`, a run of spaces in
`prefix` matching any run of spaces in `value` (or the end of `value`).  Go cuts
both runs at once; here the run in `prefix` is walked one space at a time and
the run in `value` is cut at its last space, with the same outcome. -/
def skip : List Char → List Char → Option (List Char)
  | value, [] => some value
  | value, p :: ps =>
    if p = ' ' then
      match value with
      | [] => if ps.head? = some ' ' then skip value ps else skip (cutspace value) ps
      | v :: _ =>
        if v ≠ ' ' then none
        else if ps.head? = some ' ' then skip value ps else skip (cutspace value) ps
    else
      match value with
      | [] => none
      | v :: vs => if v ≠ p then none else skip vs ps

/-- The value of a digit byte, `c - '0'`. -/
def digitVal (c : Char) : Int := (c.toNat : Int) - 48

/-- `getnum(s, fixed)`: one or two leading digits (`fixed` demands two); `none`
is `errBad`. -/
def getnum (s : List Char) (fixed : Bool) : Option (Int × List Char) :=
  if !isDigit s 0 then none
  else if !isDigit s 1 then
    if fixed then none else some (digitVal (s.headD '0'), s.drop 1)
  else some (digitVal (s.headD '0') * 10 + digitVal ((s.drop 1).headD '0'), s.drop 2)

/-- `leadingInt(s)`: the leading digits of `s` as a number and the rest; `none`
is the overflow error. -/
def leadingInt : List Char → Int → Option (Int × List Char)
  | [], x => some (x, [])
  | c :: cs, x =>
    if !isDigitChar c then some (x, c :: cs)
    else if x > (2 ^ 63 : Int).tdiv 10 then none
    else if x * 10 + digitVal c > 2 ^ 63 then none
    else leadingInt cs (x * 10 + digitVal c)

/-- `atoi(s)`: an optional sign and digits up to the end of `s`; `none` is
`errAtoi`. -/
def atoi (s : List Char) : Option Int :=
  let neg : Bool := decide (s.head? = some '-')
  let s := if s.head? = some '-' ∨ s.head? = some '+' then s.drop 1 else s
  match leadingInt s 0 with
  | none => none
  | some (q, rem) => if rem ≠ [] then none else some (if neg then -q else q)

/-- `commaOrPeriod(b)`. -/
def commaOrPeriod (c : Char) : Bool := decide (c = '.' ∨ c = ',')

/-- What one `std` element makes of the value: the fields so far and the rest
of the value, a range error (`rangeErrString`), or `errBad`. -/
inductive Scan (α : Type) where
  | ok (a : α) : Scan α
  | outOfRange (what : String) : Scan α
  | bad : Scan α

/-- `parseNanoseconds(value, nbytes)`; the caller guarantees a first byte. -/
def parseNanoseconds (value : List Char) (nbytes : Nat) : Scan Int :=
  if !commaOrPeriod (value.headD ' ') then .bad
  else
    let value := if nbytes > 10 then value.take 10 else value
    let nbytes := if nbytes > 10 then 10 else nbytes
    match atoi ((value.take nbytes).drop 1) with
    | none => .bad
    | some ns =>
      if ns < 0 then .outOfRange "fractional second"
      else .ok (ns * 10 ^ (10 - nbytes))

/-! ### The calendar -/

/-- `isLeap(year)`. -/
def isLeap (year : Int) : Bool :=
  decide (year.tmod 4 = 0 ∧ (year.tmod 100 ≠ 0 ∨ year.tmod 400 = 0))

/-- The table `daysBefore`: days in a non-leap year before the end of month `m`. -/
def daysBefore : List Int :=
  [0, 31, 59, 90, 120, 151, 181, 212, 243, 273, 304, 334, 365]

/-- `daysIn(m, year)`. -/
def daysIn (m : Int) (year : Int) : Int :=
  if m = 2 ∧ isLeap year then 29
  else daysBefore.getD m.toNat 0 - daysBefore.getD (m.toNat - 1) 0

/-- `norm(hi, lo, base)`. -/
def norm (hi lo base : Int) : Int × Int :=
  let r1 : Int × Int :=
    if lo < 0 then (hi - ((-lo - 1).tdiv base + 1), lo + ((-lo - 1).tdiv base + 1) * base)
    else (hi, lo)
  if r1.2 ≥ base then (r1.1 + r1.2.tdiv base, r1.2 - r1.2.tdiv base * base) else r1

/-- The constant `absoluteZeroYear`. -/
def absoluteZeroYear : Int := -292277022399

/-- The constant `absoluteToInternal`, `(absoluteZeroYear - 1) * 365.2425 * 86400`. -/
def absoluteToInternal : Int := (absoluteZeroYear - 1) * 31556952

/-- The constant `internalToUnix`, minus the seconds from year 1 to 1970. -/
def internalToUnix : Int := -((1969 * 365 + 1969 / 4 - 1969 / 100 + 1969 / 400) * 86400)

/-- `daysSinceEpoch(year)`, in `uint64` arithmetic: whole 400-, 100- and 4-year
cycles and single years since the absolute zero year. -/
def daysSinceEpoch (year : Int) : Int :=
  let y := toUint64 (year - absoluteZeroYear)
  let n400 := y / 400
  let y1 := y - 400 * n400
  let n100 := y1 / 100
  let y2 := y1 - 100 * n100
  let n4 := y2 / 4
  let y3 := y2 - 4 * n4
  toUint64 (146097 * n400 + 36524 * n100 + 1461 * n4 + 365 * y3)

/-- `Date(year, month, day, hour, min, sec, nsec, loc)`. -/
def Date (year month day hour min sec nsec : Int) (loc : Location) : Time :=
  let ym := norm year (month - 1) 12
  let year := ym.1
  let month := ym.2 + 1
  let sn := norm sec nsec 1000000000
  let ms := norm min sn.1 60
  let hm := norm hour ms.1 60
  let dh := norm day hm.1 24
  let d0 := daysSinceEpoch year
  let d1 := toUint64 (d0 + toUint64 (daysBefore.getD (month - 1).toNat 0))
  let d2 := if isLeap year ∧ month ≥ 3 then toUint64 (d1 + 1) else d1
  let d3 := toUint64 (d2 + toUint64 (dh.1 - 1))
  let abs0 := toUint64 (d3 * 86400)
  let abs := toUint64 (abs0 + toUint64 (dh.2 * 3600 + hm.2 * 60 + ms.2))
  let unix := toInt64 (toInt64 abs + toInt64 (absoluteToInternal + internalToUnix))
  let zone := loc.lookup unix
  let unix2 :=
    if zone.1 ≠ 0 then
      let utc := toInt64 (unix - zone.1)
      let offset := if utc < zone.2.1 ∨ utc ≥ zone.2.2 then (loc.lookup utc).1 else zone.1
      toInt64 (unix - offset)
    else unix
  { sec := unix2, nsec := sn.2, loc := loc }

/-! ### `Parse` -/

/-- The fields `parse` fills in, with their initial values. -/
structure Fields where
  year : Int
  month : Int
  day : Int
  hour : Int
  min : Int
  sec : Int
  nsec : Int

/-- The initial values of the fields (`month` and `day` start unset). -/
def Fields.init : Fields :=
  { year := 0, month := -1, day := -1, hour := 0, min := 0, sec := 0, nsec := 0 }

/-- One arm of the `switch std & stdMask` of `parse`; `layout` is the layout
after this element. -/
def parseStd (std : Std) (layout value : List Char) (fs : Fields) : Scan (List Char × Fields) :=
  match std with
  | .stdLongYear =>
    if value.length < 4 ∨ !isDigit value 0 then .bad
    else
      match atoi (value.take 4) with
      | none => .bad
      | some year => .ok (value.drop 4, { fs with year := year })
  | .stdZeroMonth =>
    match getnum value true with
    | none => .bad
    | some (month, value) =>
      if month ≤ 0 ∨ 12 < month then .outOfRange "month"
      else .ok (value, { fs with month := month })
  | .stdZeroDay =>
    match getnum value true with
    | none => .bad
    | some (day, value) => .ok (value, { fs with day := day })
  | .stdHour =>
    match getnum value false with
    | none => .bad
    | some (hour, value) =>
      if hour < 0 ∨ 24 ≤ hour then .outOfRange "hour"
      else .ok (value, { fs with hour := hour })
  | .stdZeroMinute =>
    match getnum value true with
    | none => .bad
    | some (min, value) =>
      if min < 0 ∨ 60 ≤ min then .outOfRange "minute"
      else .ok (value, { fs with min := min })
  | .stdZeroSecond =>
    match getnum value true with
    | none => .bad
    | some (sec, value) =>
      if sec < 0 ∨ 60 ≤ sec then .outOfRange "second"
      else if value.length ≥ 2 ∧ commaOrPeriod (value.headD ' ') ∧ isDigit value 1 then
        match (nextStdChunk layout).2.1 with
        | some (.stdFracSecond0 _) => .ok (value, { fs with sec := sec })
        | _ =>
          let n := 2 + ((value.drop 2).takeWhile isDigitChar).length
          match parseNanoseconds value n with
          | .ok nsec => .ok (value.drop n, { fs with sec := sec, nsec := nsec })
          | .outOfRange what => .outOfRange what
          | .bad => .bad
      else .ok (value, { fs with sec := sec })
  | .stdFracSecond0 digits =>
    if value.length < 1 + digits then .bad
    else
      match parseNanoseconds value (1 + digits) with
      | .ok nsec => .ok (value.drop (1 + digits), { fs with nsec := nsec })
      | .outOfRange what => .outOfRange what
      | .bad => .bad

/-- The `for` loop of `parse`, one `std` element per iteration.  Every iteration
but the last shortens the layout, so `fuel` above the layout's length is never
used up (`parseLoop_fuel`). -/
def parseLoop : Nat → List Char → List Char → Fields → Except String Fields
  | 0, _, _, _ => .error "layout not consumed"
  | fuel + 1, layout, value, fs =>
    match skip value (nextStdChunk layout).1 with
    | none => .error "cannot parse"
    | some value =>
      match (nextStdChunk layout).2.1 with
      | none => if value ≠ [] then .error ": extra text" else .ok fs
      | some std =>
        match parseStd std (nextStdChunk layout).2.2 value fs with
        | .bad => .error "cannot parse"
        | .outOfRange what => .error (": " ++ what ++ " out of range")
        | .ok (value, fs) => parseLoop fuel (nextStdChunk layout).2.2 value fs

/-- `ParseInLocation(layout, value, loc)`, for a layout without zone or year-day
elements: the loop, the defaults for an unset month and day, the validation of
the day of the month, and `Date` in `loc`. -/
def ParseInLocation (layout value : String) (loc : Location) : Except String Time :=
  match parseLoop (layout.data.length + 1) layout.data value.data Fields.init with
  | .error e => .error e
  | .ok fs =>
    let month := if fs.month < 0 then 1 else fs.month
    let day := if fs.day < 0 then 1 else fs.day
    if day < 1 ∨ day > daysIn month fs.year then .error ": day out of range"
    else .ok (Date fs.year month day fs.hour fs.min fs.sec fs.nsec loc)

/-! ### The rest of the runtime -/

/-- What the model leaves open: the clock, the zone database, the rows of
`unicode.CaseRanges` other than the two written out in `toUpperCase`, the
location `time.Local` and the text `Time.String` prints. -/
structure World where
  clock : Time
  zoneinfo : String → Except String Location
  caseRows : Char → Char
  localLoc : Location
  render : Time → String

/-- `time.LoadLocation(name)`: the names "" and "UTC" give `time.UTC` without a
look at the zone database; every other name is left to `zoneinfo`. -/
def LoadLocation (zoneinfo : String → Except String Location) (name : String) :
    Except String Location :=
  if name = "" ∨ name = "UTC" then .ok utcLoc else zoneinfo name

/-- `unicode.To(unicode.UpperCase, r)` above ASCII.  The two rows of
`unicode.CaseRanges` whose upper-case image is an ASCII letter are written out,
`{0x0131, 0x0131, d{-232, 0, -232}}` (dotless i, to `I`) and
`{0x017F, 0x017F, d{-300, 0, -300}}` (long s, to `S`); every other row is left to
`rows`. -/
def toUpperCase (rows : Char → Char) (r : Char) : Char :=
  if r.toNat = 0x131 then Char.ofNat (0x131 - 232)
  else if r.toNat = 0x17F then Char.ofNat (0x17F - 300)
  else rows r

/-- The Go runtime over a `World`. -/
def goRuntime (w : World) : Runtime Location Time :=
  { upperCase := toUpperCase w.caseRows
    now := w.clock
    loadLocation := LoadLocation w.zoneinfo
    parseInLocation := ParseInLocation
    timeUnix := Time.Unix
    unixTime := fun sec => { sec := sec, nsec := 0, loc := w.localLoc }
    timeIn := Time.In
    timeString := w.render }

end GoTime

/-! ## Specification-side vocabulary -/

/-- The spec's "written with each letter in upper or lower case": `s` has the
letters of the upper-case word `k`, each as it stands or in lower case. -/
def spells : List Char → List Char → Bool
  | [], [] => true
  | c :: cs, k :: ks => (c == k || c == k.toLower) && spells cs ks
  | _, _ => false

/-- The spec's table of abbreviations and zone identifiers (spec sections 3
and 6, and the identifiers named in 4.1). -/
def abbreviationTable : List (String × String) :=
  [ ("UTC", "UTC"),
    ("JST", "Asia/Tokyo"),
    ("PT", "America/Los_Angeles"),
    ("PST", "America/Los_Angeles"),
    ("PDT", "America/Los_Angeles"),
    ("IST", "Asia/Kolkata") ]

/-- The string is one of the six abbreviations in some mix of cases. -/
def isAbbreviation (s : String) : Bool :=
  abbreviationTable.any (fun kz => spells s.data kz.1.data)

/-- The four output lines of spec section 6, in the order UTC, Tokyo, Los
Angeles. -/
def fourLines (normalized utcLine jstLine ptLine : String) : String :=
  "Normalized: " ++ normalized ++ "\n" ++ utcLine ++ "\n" ++ jstLine ++ "\n" ++ ptLine ++ "\n"

/-- The outcome of the one parse `parsePartialDate` attempts against `f`. -/
def parseOutcome {Loc Time : Type} (rt : Runtime Loc Time) (f s : String) (loc : Loc) :
    Except Error Int × List (Call Loc) :=
  match rt.parseInLocation f s loc with
  | .ok t => (.ok (rt.timeUnix t), [.parseInLocation f s loc])
  | .error _ => (.error (.invalidDateFormat s), [.parseInLocation f s loc])

/-- A rune that Go upper-cases to the capital letter `k`: `k`, its lower-case
letter, and, above ASCII, U+0131 (dotless i) for `I` and U+017F (long s) for `S`. -/
def upperCasesTo (c k : Char) : Bool :=
  c == k || c == k.toLower || (k == 'I' && c.toNat == 0x131) || (k == 'S' && c.toNat == 0x17F)

/-- The word `k` written with runes that Go upper-cases to its letters. -/
def spellsGo : List Char → List Char → Bool
  | [], [] => true
  | c :: cs, k :: ks => upperCasesTo c k && spellsGo cs ks
  | _, _ => false

/-- The string upper-cases, rune by rune, to one of the six abbreviations. -/
def isAbbreviationGo (s : String) : Bool :=
  abbreviationTable.any (fun kz => spellsGo s.data kz.1.data)

/-- The fact about `unicode.CaseRanges` the resolver depends on: the only runes
above ASCII with an ASCII upper case are U+0131, to `I`, and U+017F, to `S`. -/
def AsciiUpperImages (upperCase : Char → Char) : Prop :=
  ∀ r : Char, 0x80 ≤ r.toNat → (upperCase r).toNat < 0x80 →
    (r.toNat = 0x131 ∧ upperCase r = 'I') ∨ (r.toNat = 0x17F ∧ upperCase r = 'S')

/-- The capital letters occurring in the keys of the map. -/
def keyLetters : List Char := ['U', 'T', 'C', 'J', 'S', 'P', 'D', 'I']

/-- A zone with one fixed offset, for evaluating the model. -/
def GoTime.fixedZone (name : String) (offset : Int) : GoTime.Location :=
  { name := name, lookup := fun _ => (offset, GoTime.alpha, GoTime.omega) }

/-- A world for evaluating the model at concrete inputs: the clock stands at
1800000000, the zone database holds the three zones of the map with their
standard offsets, and no further row of the case table is taken into account. -/
def GoTime.sampleWorld : GoTime.World :=
  { clock := { sec := 1800000000, nsec := 0, loc := GoTime.utcLoc }
    zoneinfo := fun name =>
      if name = "Asia/Tokyo" then .ok (GoTime.fixedZone "Asia/Tokyo" 32400)
      else if name = "America/Los_Angeles" then
        .ok (GoTime.fixedZone "America/Los_Angeles" (-28800))
      else if name = "Asia/Kolkata" then .ok (GoTime.fixedZone "Asia/Kolkata" 19800)
      else .error ("unknown time zone " ++ name)
    caseRows := fun r => r
    localLoc := GoTime.utcLoc
    render := fun t => toString t.sec ++ " " ++ t.loc.name }

/-! ## The calendar of the specification -/

/-- The Gregorian leap-year rule: every fourth year, except the centuries not
divisible by 400. -/
def leapYear (y : Nat) : Bool := decide (y % 4 = 0 ∧ (y % 100 ≠ 0 ∨ y % 400 = 0))

/-- The number of days of year `y`. -/
def daysInYear (y : Nat) : Nat := if leapYear y then 366 else 365

/-- The number of days of month `m` of year `y`. -/
def daysInMonth (y m : Nat) : Nat :=
  match m with
  | 1 => 31 | 2 => if leapYear y then 29 else 28 | 3 => 31 | 4 => 30 | 5 => 31 | 6 => 30
  | 7 => 31 | 8 => 31 | 9 => 30 | 10 => 31 | 11 => 30 | 12 => 31 | _ => 0

/-- The number of days from 0000-01-01 to the date, counted as whole years,
whole months of the year, and days of the month. -/
def dayNumber (y m d : Nat) : Nat :=
  ((List.range y).map daysInYear).sum + ((List.range (m - 1)).map (fun i => daysInMonth y (i + 1))).sum
    + (d - 1)

/-- The number of days from 1970-01-01 to the date, negative before 1970. -/
def daysFromEpoch (y m d : Nat) : Int := (dayNumber y m d : Int) - (dayNumber 1970 1 1 : Int)

/-- The decimal digit `n` as a character, `'0' + n`. -/
def digitChar (n : Nat) : Char := Char.ofNat (48 + n)

/-- A number below 100 written with two digits, zero-padded. -/
def twoDigits (n : Nat) : List Char := [digitChar (n / 10), digitChar (n % 10)]

/-- A number below 10000 written with four digits, zero-padded. -/
def fourDigits (n : Nat) : List Char :=
  [digitChar (n / 1000), digitChar (n / 100 % 10), digitChar (n / 10 % 10), digitChar (n % 10)]

/-- The zero-padded string "YYYY-MM-DD" of a date. -/
def isoDate (y m d : Nat) : String :=
  String.mk (fourDigits y ++ '-' :: twoDigits m ++ '-' :: twoDigits d)

/-- A date of the Gregorian calendar with a four-digit year. -/
def validDate (y m d : Nat) : Prop :=
  y ≤ 9999 ∧ 1 ≤ m ∧ m ≤ 12 ∧ 1 ≤ d ∧ d ≤ daysInMonth y m

/-- A string against a shape, position by position: the letter `d` of a shape
stands for an ASCII digit, `f` for a period or comma, `g` for an ASCII digit or
a sign, and every other character for itself. -/
def matchesShape : List Char → List Char → Bool
  | [], [] => true
  | c :: cs, p :: ps =>
    (if p = 'd' then c.isDigit
      else if p = 'f' then c == '.' || c == ','
      else if p = 'g' then c.isDigit || c == '+' || c == '-'
      else c == p) && matchesShape cs ps
  | _, _ => false

/-- The seven supported shapes of spec section 6: YYYY, YYYY-MM, YYYY-MM-DD,
YYYY-MM-DD HH, YYYY-MM-DD HH:MM, YYYY-MM-DD HH:MM:SS, YYYY-MM-DD HH:MM:SS.mmm. -/
def supportedShapes : List String :=
  [ "dddd",
    "dddd-dd",
    "dddd-dd-dd",
    "dddd-dd-dd dd",
    "dddd-dd-dd dd:dd",
    "dddd-dd-dd dd:dd:dd",
    "dddd-dd-dd dd:dd:dd.ddd" ]

/-- The string has one of the seven supported shapes. -/
def hasSupportedShape (s : String) : Bool :=
  supportedShapes.any (fun p => matchesShape s.data p.data)

/-- The further shapes the library parse lets through at the same lengths.  The
first three are the shapes with an hour, a minute and a second in which the
hour is written as two spaces and one digit instead of one space and two
digits.  The fourth is the millisecond shape in which a comma may stand for the
period and a sign for the first millisecond digit.  The fifth is the
millisecond shape with the two-space one-digit hour, with or without the comma
or the sign of the fourth. -/
def lenientShapes : List String :=
  [ "dddd-dd-dd  d",
    "dddd-dd-dd  d:dd",
    "dddd-dd-dd  d:dd:dd",
    "dddd-dd-dd dd:dd:ddfgdd",
    "dddd-dd-dd  d:dd:ddfgdd" ]

/-- The string has a supported or a lenient shape. -/
def hasAcceptedShape (s : String) : Bool :=
  (supportedShapes ++ lenientShapes).any (fun p => matchesShape s.data p.data)

/-! ## Lemmas on the embedding -/

theorem tdiv_of_nonneg (m d : Int) (hm : 0 ≤ m) (hd : 0 < d) : m.tdiv d = m / d :=
  Int.tdiv_eq_ediv hm (le_of_lt hd)

theorem tdiv_of_neg (m d : Int) (hm : m < 0) (hd : 0 < d) : m.tdiv d = -((-m) / d) := by
  have h := Int.neg_tdiv (-m) d
  rw [neg_neg] at h
  rw [h, Int.tdiv_eq_ediv (by omega) (le_of_lt hd)]

theorem formats_byteSizes : formats.map String.utf8ByteSize = [4, 7, 10, 13, 16, 19, 23] := by
  decide

/-- With the input empty `normalize` reads the clock, whatever the other flags. -/
theorem normalize_in_empty {Loc Time : Type} (rt : Runtime Loc Time) (f : Flags)
    (h : f.in_ = "") : normalize rt f = (.ok (rt.timeUnix rt.now), [.now]) := by
  simp [normalize, h]

/-- The loop of `parsePartialDate` when no remaining format has the length of `s`. -/
theorem parsePartialDateLoop_no_length {Loc Time : Type} (rt : Runtime Loc Time) (s : String)
    (loc : Loc) (fmts : List String) (log : List (Call Loc))
    (h : ∀ f ∈ fmts, f.utf8ByteSize ≠ s.utf8ByteSize) :
    parsePartialDateLoop rt s loc fmts log = (.error (.invalidDateFormat s), log) := by
  induction fmts generalizing log with
  | nil => rfl
  | cons f rest ih =>
    have hf : ¬ s.utf8ByteSize = f.utf8ByteSize := fun e => h f (by simp) e.symm
    simp only [parsePartialDateLoop, hf, if_false]
    exact ih log (fun g hg => h g (by simp [hg]))

/-- With a format of the length of `s`, `parsePartialDate` is the parse against it. -/
theorem parsePartialDate_of_length {Loc Time : Type} (rt : Runtime Loc Time) (s : String)
    (loc : Loc) (f : String) (hf : f ∈ formats) (h : s.utf8ByteSize = f.utf8ByteSize) :
    parsePartialDate rt s loc = parseOutcome rt f s loc := by
  have e1 : "2006".utf8ByteSize = 4 := by decide
  have e2 : "2006-01".utf8ByteSize = 7 := by decide
  have e3 : "2006-01-02".utf8ByteSize = 10 := by decide
  have e4 : "2006-01-02 15".utf8ByteSize = 13 := by decide
  have e5 : "2006-01-02 15:04".utf8ByteSize = 16 := by decide
  have e6 : "2006-01-02 15:04:05".utf8ByteSize = 19 := by decide
  have e7 : "2006-01-02 15:04:05.000".utf8ByteSize = 23 := by decide
  simp only [formats, List.mem_cons, List.mem_singleton, List.not_mem_nil, or_false] at hf
  rcases hf with rfl | rfl | rfl | rfl | rfl | rfl | rfl <;>
    simp only [e1, e2, e3, e4, e5, e6, e7] at h <;>
    simp only [parsePartialDate, formats, parsePartialDateLoop, parseOutcome, h, e1, e2, e3, e4,
      e5, e6, e7] <;>
    cases rt.parseInLocation _ s loc <;> simp

/-! ## The normalizer's priority tiers -/

/-- C1 (the code at the claim's inputs): with `-in` left empty and `-tz` at its
default, a numeric flag `v` given alone is not returned; `normalize` returns the
clock reading, after one call to the clock, for `-unix=v`, `-unixmilli=v` and
`-unixmicro=v` alike, so with a clock at 1800000000 the flag `-unix=1700000000`
normalizes to 1800000000. -/
theorem normalize_numeric_flag_alone_reads_clock {Loc Time : Type} (rt : Runtime Loc Time)
    (v : Int) :
    normalize rt { Flags.defaults with unix := v } = (.ok (rt.timeUnix rt.now), [.now]) ∧
    normalize rt { Flags.defaults with unixMilli := v } = (.ok (rt.timeUnix rt.now), [.now]) ∧
    normalize rt { Flags.defaults with unixMicro := v } = (.ok (rt.timeUnix rt.now), [.now]) ∧
    (rt.timeUnix rt.now = 1800000000 →
      (normalize rt { Flags.defaults with unix := 1700000000 }).1 = .ok 1800000000) := by
  refine ⟨?_, ?_, ?_, ?_⟩
  · exact normalize_in_empty rt _ rfl
  · exact normalize_in_empty rt _ rfl
  · exact normalize_in_empty rt _ rfl
  · intro h
    rw [normalize_in_empty rt _ rfl, h]

/-- C2: when `-in` is non-empty, `normalize` is the priority decision: `unix` if
it is non-zero; else `unixMilli/1000` if `unixMilli` is non-zero; else
`unixMicro/1000000` if `unixMicro` is non-zero, in all three cases without any
library call (so neither `-in` nor `-tz` is looked at); else the resolver's
error and calls if the resolver fails on `-tz`, and else the result, value or
error, of `parsePartialDate` on `-in` in the resolved location, after the
resolver's calls. -/
theorem normalize_priority {Loc Time : Type} (rt : Runtime Loc Time) (f : Flags)
    (hin : f.in_ ≠ "") :
    (f.unix ≠ 0 → normalize rt f = (.ok f.unix, [])) ∧
    (f.unix = 0 → f.unixMilli ≠ 0 → normalize rt f = (.ok (f.unixMilli.tdiv 1000), [])) ∧
    (f.unix = 0 → f.unixMilli = 0 → f.unixMicro ≠ 0 →
      normalize rt f = (.ok (f.unixMicro.tdiv 1000000), [])) ∧
    (f.unix = 0 → f.unixMilli = 0 → f.unixMicro = 0 →
      (∀ err log, getLocationFromAbbreviation rt f.timezone = (.error err, log) →
        normalize rt f = (.error err, log)) ∧
      (∀ location log, getLocationFromAbbreviation rt f.timezone = (.ok location, log) →
        normalize rt f =
          ((parsePartialDate rt f.in_ location).1,
            log ++ (parsePartialDate rt f.in_ location).2))) := by
  refine ⟨?_, ?_, ?_, ?_⟩
  · intro h1
    simp [normalize, hin, h1]
  · intro h1 h2
    simp [normalize, hin, h1, h2]
  · intro h1 h2 h3
    simp [normalize, hin, h1, h2, h3]
  · intro h1 h2 h3
    refine ⟨?_, ?_⟩
    · intro err log hloc
      simp [normalize, hin, h1, h2, h3, hloc]
    · intro location log hloc
      simp only [normalize, hin, h1, h2, h3, hloc, if_false, ne_eq, not_true_eq_false]
      rcases hp : parsePartialDate rt f.in_ location with ⟨r, log2⟩
      cases r <;> simp

/-- C3: the seven templates have the byte lengths 4, 7, 10, 13, 16, 19, 23, which
are pairwise distinct; if no template has the byte length of `s`, the result is
the InvalidDateFormat error and no parse is attempted; if template `f` has that
length, exactly one parse is attempted, of `s` against `f` in the given
location, and the result is the Unix seconds of the parsed time when it
succeeds and the InvalidDateFormat error when it fails. -/
theorem parsePartialDate_single_template {Loc Time : Type} (rt : Runtime Loc Time)
    (s : String) (location : Loc) :
    formats.map String.utf8ByteSize = [4, 7, 10, 13, 16, 19, 23] ∧
    (formats.map String.utf8ByteSize).Nodup ∧
    ((∀ f ∈ formats, f.utf8ByteSize ≠ s.utf8ByteSize) →
      parsePartialDate rt s location = (.error (.invalidDateFormat s), [])) ∧
    (∀ f ∈ formats, s.utf8ByteSize = f.utf8ByteSize →
      (parsePartialDate rt s location).2 = [.parseInLocation f s location] ∧
      (∀ t, rt.parseInLocation f s location = .ok t →
        (parsePartialDate rt s location).1 = .ok (rt.timeUnix t)) ∧
      (∀ e, rt.parseInLocation f s location = .error e →
        (parsePartialDate rt s location).1 = .error (.invalidDateFormat s))) := by
  refine ⟨formats_byteSizes, ?_, ?_, ?_⟩
  · rw [formats_byteSizes]
    decide
  · intro h
    exact parsePartialDateLoop_no_length rt s location formats [] h
  · intro f hf hlen
    rw [parsePartialDate_of_length rt s location f hf hlen]
    refine ⟨?_, ?_, ?_⟩
    · unfold parseOutcome
      cases rt.parseInLocation f s location <;> rfl
    · intro t ht
      simp [parseOutcome, ht]
    · intro e he
      simp [parseOutcome, he]

/-- C9: with `-in` empty and the three numeric flags zero, for every `-tz`
(in the table or not) `normalize` succeeds with the clock's Unix seconds, and
its only library call is the clock: the zone is not resolved. -/
theorem normalize_no_input_reads_clock {Loc Time : Type} (rt : Runtime Loc Time) (f : Flags)
    (hin : f.in_ = "") (_h1 : f.unix = 0) (_h2 : f.unixMilli = 0) (_h3 : f.unixMicro = 0) :
    normalize rt f = (.ok (rt.timeUnix rt.now), [.now]) :=
  normalize_in_empty rt f hin

/-- C10: with `-in` non-empty and `unix = 0`, a non-zero `unixMilli = m` gives
`r = m/1000` rounded toward zero: `|m - 1000 r| < 1000` and `m - 1000 r` is zero
or has the sign of `m`; `r` is the floor of `m/1000` for `m >= 0` and the floor
plus one for negative `m` not divisible by 1000; -1 gives 0, -1500 gives -1,
and every `m` with `0 < |m| < 1000` gives 0.  With `unixMilli = 0` too, the same
holds for a non-zero `unixMicro` and 1000000. -/
theorem normalize_subsecond_truncates {Loc Time : Type} (rt : Runtime Loc Time) (f : Flags)
    (hin : f.in_ ≠ "") (hunix : f.unix = 0) :
    (f.unixMilli ≠ 0 → ∃ r : Int, normalize rt f = (.ok r, []) ∧
      |f.unixMilli - 1000 * r| < 1000 ∧
      (0 ≤ f.unixMilli → 0 ≤ f.unixMilli - 1000 * r) ∧
      (f.unixMilli ≤ 0 → f.unixMilli - 1000 * r ≤ 0) ∧
      (0 ≤ f.unixMilli → r = ⌊(f.unixMilli : ℚ) / 1000⌋) ∧
      (f.unixMilli < 0 → f.unixMilli % 1000 ≠ 0 → r = ⌊(f.unixMilli : ℚ) / 1000⌋ + 1) ∧
      (f.unixMilli = -1 → r = 0) ∧
      (f.unixMilli = -1500 → r = -1) ∧
      (|f.unixMilli| < 1000 → r = 0)) ∧
    (f.unixMilli = 0 → f.unixMicro ≠ 0 → ∃ r : Int, normalize rt f = (.ok r, []) ∧
      |f.unixMicro - 1000000 * r| < 1000000 ∧
      (0 ≤ f.unixMicro → 0 ≤ f.unixMicro - 1000000 * r) ∧
      (f.unixMicro ≤ 0 → f.unixMicro - 1000000 * r ≤ 0) ∧
      (0 ≤ f.unixMicro → r = ⌊(f.unixMicro : ℚ) / 1000000⌋) ∧
      (f.unixMicro < 0 → f.unixMicro % 1000000 ≠ 0 →
        r = ⌊(f.unixMicro : ℚ) / 1000000⌋ + 1) ∧
      (f.unixMicro = -1 → r = 0) ∧
      (f.unixMicro = -1500000 → r = -1) ∧
      (|f.unixMicro| < 1000000 → r = 0)) := by
  have fl1 : ∀ m : Int, ⌊(m : ℚ) / 1000⌋ = m / 1000 := fun m => by
    have := Rat.floor_intCast_div_natCast m 1000
    simpa using this
  have fl2 : ∀ m : Int, ⌊(m : ℚ) / 1000000⌋ = m / 1000000 := fun m => by
    have := Rat.floor_intCast_div_natCast m 1000000
    simpa using this
  refine ⟨?_, ?_⟩
  · intro hm
    refine ⟨f.unixMilli.tdiv 1000, by simp [normalize, hin, hunix, hm], ?_⟩
    rw [fl1]
    rcases lt_or_le f.unixMilli 0 with hneg | hpos
    · rw [tdiv_of_neg _ _ hneg (by norm_num), abs_lt]
      refine ⟨⟨?_, ?_⟩, ?_, ?_, ?_, ?_, ?_, ?_, ?_⟩ <;> intros <;>
        (try simp only [abs_lt] at *) <;> omega
    · rw [tdiv_of_nonneg _ _ hpos (by norm_num), abs_lt]
      refine ⟨⟨?_, ?_⟩, ?_, ?_, ?_, ?_, ?_, ?_, ?_⟩ <;> intros <;>
        (try simp only [abs_lt] at *) <;> omega
  · intro hz hm
    refine ⟨f.unixMicro.tdiv 1000000, by simp [normalize, hin, hunix, hz, hm], ?_⟩
    rw [fl2]
    rcases lt_or_le f.unixMicro 0 with hneg | hpos
    · rw [tdiv_of_neg _ _ hneg (by norm_num), abs_lt]
      refine ⟨⟨?_, ?_⟩, ?_, ?_, ?_, ?_, ?_, ?_, ?_⟩ <;> intros <;>
        (try simp only [abs_lt] at *) <;> omega
    · rw [tdiv_of_nonneg _ _ hpos (by norm_num), abs_lt]
      refine ⟨⟨?_, ?_⟩, ?_, ?_, ?_, ?_, ?_, ?_, ?_⟩ <;> intros <;>
        (try simp only [abs_lt] at *) <;> omega

/-! ## The resolver -/

theorem char_toNat_ofNat (n : Nat) (h : n < 55296) : (Char.ofNat n).toNat = n := by
  have hv : n.isValidChar := Or.inl h
  simp only [Char.ofNat, hv, dite_true]
  rfl

theorem char_eq_of_toNat_eq (a b : Char) (h : a.toNat = b.toNat) : a = b := by
  rw [← Char.ofNat_toNat a, ← Char.ofNat_toNat b, h]

/-- On an ASCII-only string `strings.ToUpper` does not consult the case table. -/
theorem stringsToUpper_of_ascii (up : Char → Char) (s : String)
    (h : s.data.all (fun c => decide (c.toNat < 0x80)) = true) :
    stringsToUpper up s =
      if s.data.any (fun c => decide (97 ≤ c.toNat ∧ c.toNat ≤ 122)) then
        String.mk (s.data.map upperASCII)
      else s := by
  simp only [stringsToUpper, h, if_true]

/-- The resolver once the upper-cased abbreviation is a key of the map. -/
theorem getLocation_of_key {Loc Time : Type} (rt : Runtime Loc Time) (s k z : String)
    (hu : stringsToUpper rt.upperCase s = k) (hl : timezoneMap.lookup k = some z) :
    getLocationFromAbbreviation rt s =
      (match rt.loadLocation z with
        | .ok l => .ok l
        | .error e => .error (.loadLocationFailed z e), [.loadLocation z]) := by
  simp only [getLocationFromAbbreviation, hu, hl]
  cases rt.loadLocation z <;> rfl

/-- The resolver once the upper-cased abbreviation is not a key of the map. -/
theorem getLocation_of_not_key {Loc Time : Type} (rt : Runtime Loc Time) (s : String)
    (hl : timezoneMap.lookup (stringsToUpper rt.upperCase s) = none) :
    getLocationFromAbbreviation rt s =
      (.error (.abbreviationNotFound (stringsToUpper rt.upperCase s)), []) := by
  simp only [getLocationFromAbbreviation, hl]

theorem spells_two (cs : List Char) (a b : Char) (h : spells cs [a, b] = true) :
    ∃ x y, cs = [x, y] ∧ (x = a ∨ x = a.toLower) ∧ (y = b ∨ y = b.toLower) := by
  rcases cs with _ | ⟨x, _ | ⟨y, _ | ⟨z, cs⟩⟩⟩
  · simp [spells] at h
  · simp [spells] at h
  · simp only [spells, Bool.and_true, Bool.and_eq_true, Bool.or_eq_true, beq_iff_eq] at h
    exact ⟨x, y, rfl, h.1, h.2⟩
  · simp [spells] at h

theorem spells_three (cs : List Char) (a b c : Char) (h : spells cs [a, b, c] = true) :
    ∃ x y z, cs = [x, y, z] ∧ (x = a ∨ x = a.toLower) ∧ (y = b ∨ y = b.toLower) ∧
      (z = c ∨ z = c.toLower) := by
  rcases cs with _ | ⟨x, _ | ⟨y, _ | ⟨z, _ | ⟨u, cs⟩⟩⟩⟩
  · simp [spells] at h
  · simp [spells] at h
  · simp [spells] at h
  · simp only [spells, Bool.and_true, Bool.and_eq_true, Bool.or_eq_true, beq_iff_eq] at h
    exact ⟨x, y, z, rfl, h.1, h.2.1, h.2.2⟩
  · simp [spells] at h

/-- Every mixed-case spelling of a table entry is upper-cased to the entry. -/
theorem stringsToUpper_of_spells (up : Char → Char) (s : String) :
    ∀ kz ∈ abbreviationTable, spells s.data kz.1.data = true → stringsToUpper up s = kz.1 := by
  intro kz hkz hs
  obtain ⟨cs⟩ := s
  simp only [abbreviationTable, List.mem_cons, List.mem_singleton, List.not_mem_nil,
    or_false] at hkz
  rcases hkz with rfl | rfl | rfl | rfl | rfl | rfl
  · obtain ⟨x, y, z, rfl, hx, hy, hz⟩ := spells_three cs 'U' 'T' 'C' hs
    rcases hx with rfl | rfl <;> rcases hy with rfl | rfl <;> rcases hz with rfl | rfl <;>
      (rw [stringsToUpper_of_ascii _ _ (by decide)]; decide)
  · obtain ⟨x, y, z, rfl, hx, hy, hz⟩ := spells_three cs 'J' 'S' 'T' hs
    rcases hx with rfl | rfl <;> rcases hy with rfl | rfl <;> rcases hz with rfl | rfl <;>
      (rw [stringsToUpper_of_ascii _ _ (by decide)]; decide)
  · obtain ⟨x, y, rfl, hx, hy⟩ := spells_two cs 'P' 'T' hs
    rcases hx with rfl | rfl <;> rcases hy with rfl | rfl <;>
      (rw [stringsToUpper_of_ascii _ _ (by decide)]; decide)
  · obtain ⟨x, y, z, rfl, hx, hy, hz⟩ := spells_three cs 'P' 'S' 'T' hs
    rcases hx with rfl | rfl <;> rcases hy with rfl | rfl <;> rcases hz with rfl | rfl <;>
      (rw [stringsToUpper_of_ascii _ _ (by decide)]; decide)
  · obtain ⟨x, y, z, rfl, hx, hy, hz⟩ := spells_three cs 'P' 'D' 'T' hs
    rcases hx with rfl | rfl <;> rcases hy with rfl | rfl <;> rcases hz with rfl | rfl <;>
      (rw [stringsToUpper_of_ascii _ _ (by decide)]; decide)
  · obtain ⟨x, y, z, rfl, hx, hy, hz⟩ := spells_three cs 'I' 'S' 'T' hs
    rcases hx with rfl | rfl <;> rcases hy with rfl | rfl <;> rcases hz with rfl | rfl <;>
      (rw [stringsToUpper_of_ascii _ _ (by decide)]; decide)

/-- C4: for every string that spells one of UTC, JST, PT, PST, PDT, IST with each
letter in either case, `getLocationFromAbbreviation` makes exactly one call, to
the zone database for the mapped identifier (UTC to UTC, JST to Asia/Tokyo, PT,
PST and PDT to America/Los_Angeles, IST to Asia/Kolkata), and returns what that
call returns: the loaded zone when it succeeds, a ZoneLoadError carrying the
identifier and the cause when it fails. -/
theorem getLocation_of_abbreviation {Loc Time : Type} (rt : Runtime Loc Time) (s : String) :
    ∀ kz ∈ abbreviationTable, spells s.data kz.1.data = true →
      (getLocationFromAbbreviation rt s).2 = [.loadLocation kz.2] ∧
      (∀ l, rt.loadLocation kz.2 = .ok l → (getLocationFromAbbreviation rt s).1 = .ok l) ∧
      (∀ e, rt.loadLocation kz.2 = .error e →
        (getLocationFromAbbreviation rt s).1 = .error (.loadLocationFailed kz.2 e)) := by
  intro kz hkz hs
  have hu := stringsToUpper_of_spells rt.upperCase s kz hkz hs
  have hl : timezoneMap.lookup kz.1 = some kz.2 := by
    simp only [abbreviationTable, List.mem_cons, List.mem_singleton, List.not_mem_nil,
      or_false] at hkz
    rcases hkz with rfl | rfl | rfl | rfl | rfl | rfl <;> decide
  rw [getLocation_of_key rt s kz.1 kz.2 hu hl]
  refine ⟨?_, ?_, ?_⟩
  · cases rt.loadLocation kz.2 <;> rfl
  · intro l h
    rw [h]
  · intro e h
    rw [h]

/-! ## The formatter -/

/-- C8: when the zones UTC, America/Los_Angeles and Asia/Tokyo load, for every
integer `n` (negative included) `buildOutput n` is "Normalized: ", the decimal
form of `n` and a newline, then the rendering of the instant `n` in UTC, in
Asia/Tokyo and in America/Los_Angeles, each followed by a newline, in that
order, while the zones are loaded in the order UTC, America/Los_Angeles,
Asia/Tokyo; the decimal form carries a minus sign for a negative `n`; the text
is a function of `n`, so a second build gives the same text. -/
theorem buildOutput_four_lines {Loc Time : Type} (rt : Runtime Loc Time) (n : Int)
    (utc pt jst : Loc) (hutc : rt.loadLocation "UTC" = .ok utc)
    (hpt : rt.loadLocation "America/Los_Angeles" = .ok pt)
    (hjst : rt.loadLocation "Asia/Tokyo" = .ok jst) :
    buildOutput rt n =
      (.ok (fourLines (toString n)
          (rt.timeString (rt.timeIn (rt.unixTime n) utc))
          (rt.timeString (rt.timeIn (rt.unixTime n) jst))
          (rt.timeString (rt.timeIn (rt.unixTime n) pt))),
        [.loadLocation "UTC", .loadLocation "America/Los_Angeles",
          .loadLocation "Asia/Tokyo"]) ∧
    (n < 0 → toString n = "-" ++ toString n.natAbs) ∧
    (0 ≤ n → toString n = toString n.natAbs) ∧
    (∀ m : Int, m = n → (buildOutput rt m).1 = (buildOutput rt n).1) := by
  refine ⟨?_, ?_, ?_, ?_⟩
  · simp only [buildOutput, hutc, hpt, hjst, fourLines, formatInt]
  · intro hn
    obtain ⟨k, rfl⟩ := Int.eq_negSucc_of_lt_zero hn
    rfl
  · intro hn
    obtain ⟨k, rfl⟩ := Int.eq_ofNat_of_zero_le hn
    rfl
  · intro m hm
    rw [hm]

theorem keyLetters_facts : ∀ k ∈ keyLetters,
    65 ≤ k.toNat ∧ k.toNat ≤ 90 ∧ k.toLower.toNat = k.toNat + 32 := by
  decide

theorem upperCasesTo_of_upperASCII (c k : Char) (hk : k ∈ keyLetters)
    (h : upperASCII c = k) : upperCasesTo c k = true := by
  obtain ⟨h1, h2, h3⟩ := keyLetters_facts k hk
  unfold upperASCII at h
  split at h
  · rename_i hc
    have e : (Char.ofNat (c.toNat - 32)).toNat = k.toNat := by rw [h]
    rw [char_toNat_ofNat _ (by omega)] at e
    have : c = k.toLower := char_eq_of_toNat_eq _ _ (by omega)
    simp [upperCasesTo, this]
  · simp [upperCasesTo, h]

theorem upperCasesTo_of_unicodeToUpper (up : Char → Char) (hup : AsciiUpperImages up)
    (c k : Char) (hk : k ∈ keyLetters) (h : unicodeToUpper up c = k) :
    upperCasesTo c k = true := by
  unfold unicodeToUpper at h
  split at h
  · exact upperCasesTo_of_upperASCII c k hk h
  · rename_i hc
    obtain ⟨h1, h2, h3⟩ := keyLetters_facts k hk
    rcases hup c (by omega) (by rw [h]; omega) with ⟨e1, e2⟩ | ⟨e1, e2⟩
    · have : k = 'I' := by rw [← h, e2]
      simp [upperCasesTo, this, e1]
    · have : k = 'S' := by rw [← h, e2]
      simp [upperCasesTo, this, e1]

theorem spellsGo_of_map (g : Char → Char)
    (hg : ∀ c k, k ∈ keyLetters → g c = k → upperCasesTo c k = true) :
    ∀ (cs ks : List Char), (∀ k ∈ ks, k ∈ keyLetters) → cs.map g = ks →
      spellsGo cs ks = true := by
  intro cs
  induction cs with
  | nil =>
    intro ks _ h
    subst h
    rfl
  | cons c cs ih =>
    intro ks hks h
    subst h
    simp only [List.map_cons, spellsGo, Bool.and_eq_true]
    exact ⟨hg c (g c) (hks _ (by simp)) rfl,
      ih _ (fun k hk => hks k (by simp only [List.map_cons, List.mem_cons]; exact Or.inr hk)) rfl⟩

/-- A string that `strings.ToUpper` maps to a word over the key letters spells
that word, in the extended sense of `spellsGo`. -/
theorem spellsGo_of_stringsToUpper (up : Char → Char) (s : String)
    (htab : s.data.all (fun c => decide (c.toNat < 0x80)) = true ∨ AsciiUpperImages up)
    (ks : List Char) (hks : ∀ k ∈ ks, k ∈ keyLetters)
    (h : stringsToUpper up s = String.mk ks) : spellsGo s.data ks = true := by
  unfold stringsToUpper at h
  split at h
  · split at h
    · have e : s.data.map upperASCII = ks := by injection h
      exact spellsGo_of_map upperASCII upperCasesTo_of_upperASCII _ _ hks e
    · have e : s.data.map id = ks := by rw [h]; simp
      exact spellsGo_of_map id (fun c k _ hc => by
        have hck : c = k := hc
        simp [upperCasesTo, hck]) _ _ hks e
  · rename_i hna
    have hup : AsciiUpperImages up := by
      rcases htab with h1 | h2
      · exact absurd h1 hna
      · exact h2
    have e : s.data.map (unicodeToUpper up) = ks := by injection h
    exact spellsGo_of_map _ (upperCasesTo_of_unicodeToUpper up hup) _ _ hks e

theorem timezoneMap_lookup_none (u : String) (h1 : u ≠ "JST") (h2 : u ≠ "UTC") (h3 : u ≠ "PT")
    (h4 : u ≠ "PST") (h5 : u ≠ "PDT") (h6 : u ≠ "IST") : timezoneMap.lookup u = none := by
  have b1 : (u == "JST") = false := beq_false_of_ne h1
  have b2 : (u == "UTC") = false := beq_false_of_ne h2
  have b3 : (u == "PT") = false := beq_false_of_ne h3
  have b4 : (u == "PST") = false := beq_false_of_ne h4
  have b5 : (u == "PDT") = false := beq_false_of_ne h5
  have b6 : (u == "IST") = false := beq_false_of_ne h6
  simp only [timezoneMap, List.lookup, b1, b2, b3, b4, b5, b6]

/-- A string that does not spell an abbreviation is not upper-cased to a key. -/
theorem lookup_none_of_not_abbreviation (up : Char → Char) (s : String)
    (hs : isAbbreviationGo s = false)
    (htab : s.data.all (fun c => decide (c.toNat < 0x80)) = true ∨ AsciiUpperImages up) :
    timezoneMap.lookup (stringsToUpper up s) = none := by
  have key : ∀ kz ∈ abbreviationTable, (∀ k ∈ kz.1.data, k ∈ keyLetters) →
      stringsToUpper up s ≠ kz.1 := by
    intro kz hkz hk e
    have := spellsGo_of_stringsToUpper up s htab kz.1.data hk e
    have hall : isAbbreviationGo s = true := by
      unfold isAbbreviationGo
      rw [List.any_eq_true]
      exact ⟨kz, hkz, this⟩
    rw [hs] at hall
    exact Bool.noConfusion hall
  apply timezoneMap_lookup_none
  · exact key ("JST", "Asia/Tokyo") (by decide) (by decide)
  · exact key ("UTC", "UTC") (by decide) (by decide)
  · exact key ("PT", "America/Los_Angeles") (by decide) (by decide)
  · exact key ("PST", "America/Los_Angeles") (by decide) (by decide)
  · exact key ("PDT", "America/Los_Angeles") (by decide) (by decide)
  · exact key ("IST", "Asia/Kolkata") (by decide) (by decide)

theorem spellsGo_eq_spells_of_ascii :
    ∀ (cs ks : List Char), cs.all (fun c => decide (c.toNat < 0x80)) = true →
      spellsGo cs ks = spells cs ks := by
  intro cs
  induction cs with
  | nil =>
    intro ks _
    cases ks <;> rfl
  | cons c cs ih =>
    intro ks h
    simp only [List.all_cons, Bool.and_eq_true, decide_eq_true_eq] at h
    cases ks with
    | nil => rfl
    | cons k ks =>
      have e1 : (c.toNat == 0x131) = false := by
        simp only [beq_eq_false_iff_ne, ne_eq]
        omega
      have e2 : (c.toNat == 0x17F) = false := by
        simp only [beq_eq_false_iff_ne, ne_eq]
        omega
      simp only [spellsGo, spells, upperCasesTo, e1, e2, Bool.and_false, Bool.or_false,
        ih ks h.2]

theorem isAbbreviationGo_eq_of_ascii (s : String)
    (h : s.data.all (fun c => decide (c.toNat < 0x80)) = true) :
    isAbbreviationGo s = isAbbreviation s := by
  simp only [isAbbreviationGo, isAbbreviation, spellsGo_eq_spells_of_ascii _ _ h]

/-- The Go case table satisfies `AsciiUpperImages` when its remaining rows keep
runes above ASCII above ASCII. -/
theorem asciiUpperImages_toUpperCase (rows : Char → Char)
    (h : ∀ r : Char, 0x80 ≤ r.toNat → 0x80 ≤ (rows r).toNat) :
    AsciiUpperImages (GoTime.toUpperCase rows) := by
  intro r hr hlt
  unfold GoTime.toUpperCase at hlt ⊢
  by_cases h1 : r.toNat = 0x131
  · left
    simp only [h1, if_true]
    exact ⟨trivial, by decide⟩
  · by_cases h2 : r.toNat = 0x17F
    · right
      simp only [h2, if_true]
      exact ⟨trivial, by decide⟩
    · simp only [h1, h2, if_false] at hlt
      have := h r hr
      omega

/-- C5 (counterexample): the string U+0131 `s` `t` has a non-ASCII letter and is
not a mixed-case spelling of any of the six abbreviations, yet the resolver
upper-cases it to IST, consults the zone database for Asia/Kolkata and does
not fail with UnknownAbbreviation. -/
theorem getLocation_dotless_i_resolves :
    isAbbreviation "ıst" = false ∧
    ∀ w : GoTime.World,
      (getLocationFromAbbreviation (GoTime.goRuntime w) "ıst").2
        = [Call.loadLocation "Asia/Kolkata"] ∧
      ∀ a, (getLocationFromAbbreviation (GoTime.goRuntime w) "ıst").1
        ≠ .error (.abbreviationNotFound a) := by
  refine ⟨by decide, fun w => ?_⟩
  have hu : stringsToUpper (GoTime.goRuntime w).upperCase "ıst" = "IST" := by
    rfl
  rw [getLocation_of_key (GoTime.goRuntime w) _ "IST" "Asia/Kolkata" hu (by decide)]
  refine ⟨?_, ?_⟩
  · cases (GoTime.goRuntime w).loadLocation "Asia/Kolkata" <;> rfl
  · intro a
    cases (GoTime.goRuntime w).loadLocation "Asia/Kolkata" <;> simp

/-- C5 (amended): every ASCII-only string that is not a mixed-case spelling of
one of the six abbreviations (so "XYZ", the empty string, " UTC", "Asia/Tokyo"),
and, when U+0131 and U+017F are the only runes above ASCII with an ASCII upper
case, every string that does not upper-case rune by rune to one of the six,
makes `getLocationFromAbbreviation` fail with UnknownAbbreviation without a
call to the zone database; so does `normalize` with a non-empty `-in`, the
numeric flags zero and such a `-tz`. -/
theorem getLocation_unknown_abbreviation {Loc Time : Type} (rt : Runtime Loc Time) (s : String)
    (hs : (s.data.all (fun c => decide (c.toNat < 0x80)) = true ∧ isAbbreviation s = false) ∨
      (AsciiUpperImages rt.upperCase ∧ isAbbreviationGo s = false)) :
    getLocationFromAbbreviation rt s =
      (.error (.abbreviationNotFound (stringsToUpper rt.upperCase s)), []) ∧
    ∀ f : Flags, f.in_ ≠ "" → f.unix = 0 → f.unixMilli = 0 → f.unixMicro = 0 →
      f.timezone = s →
      normalize rt f = (.error (.abbreviationNotFound (stringsToUpper rt.upperCase s)), []) := by
  have hnone : timezoneMap.lookup (stringsToUpper rt.upperCase s) = none := by
    rcases hs with ⟨h1, h2⟩ | ⟨h1, h2⟩
    · exact lookup_none_of_not_abbreviation _ s
        (by rw [isAbbreviationGo_eq_of_ascii s h1]; exact h2) (Or.inl h1)
    · exact lookup_none_of_not_abbreviation _ s h2 (Or.inr h1)
  have hloc := getLocation_of_not_key rt s hnone
  refine ⟨hloc, ?_⟩
  intro f hin h1 h2 h3 htz
  subst htz
  simp only [normalize, hin, h1, h2, h3, hloc, if_false, ne_eq, not_true_eq_false]

theorem getLocation_unknown_abbreviation_witness :
    getLocationFromAbbreviation (GoTime.goRuntime GoTime.sampleWorld) "XYZ"
      = (.error (.abbreviationNotFound "XYZ"), []) ∧
    getLocationFromAbbreviation (GoTime.goRuntime GoTime.sampleWorld) ""
      = (.error (.abbreviationNotFound ""), []) ∧
    getLocationFromAbbreviation (GoTime.goRuntime GoTime.sampleWorld) " UTC"
      = (.error (.abbreviationNotFound " UTC"), []) ∧
    getLocationFromAbbreviation (GoTime.goRuntime GoTime.sampleWorld) "Asia/Tokyo"
      = (.error (.abbreviationNotFound "ASIA/TOKYO"), []) ∧
    getLocationFromAbbreviation (GoTime.goRuntime GoTime.sampleWorld) "東京"
      = (.error (.abbreviationNotFound "東京"), []) ∧
    normalize (GoTime.goRuntime GoTime.sampleWorld)
        { Flags.defaults with in_ := "2023-01-01 15:04:05", timezone := "XYZ" }
      = (.error (.abbreviationNotFound "XYZ"), []) :=
  ⟨(getLocation_unknown_abbreviation (GoTime.goRuntime GoTime.sampleWorld) "XYZ"
      (Or.inl ⟨by decide, by decide⟩)).1,
    (getLocation_unknown_abbreviation (GoTime.goRuntime GoTime.sampleWorld) ""
      (Or.inl ⟨by decide, by decide⟩)).1,
    (getLocation_unknown_abbreviation (GoTime.goRuntime GoTime.sampleWorld) " UTC"
      (Or.inl ⟨by decide, by decide⟩)).1,
    (getLocation_unknown_abbreviation (GoTime.goRuntime GoTime.sampleWorld) "Asia/Tokyo"
      (Or.inl ⟨by decide, by decide⟩)).1,
    (getLocation_unknown_abbreviation (GoTime.goRuntime GoTime.sampleWorld) "東京"
      (Or.inr ⟨asciiUpperImages_toUpperCase _ (fun _ h => h), by decide⟩)).1,
    (getLocation_unknown_abbreviation (GoTime.goRuntime GoTime.sampleWorld) "XYZ"
      (Or.inl ⟨by decide, by decide⟩)).2 _ (by decide) rfl rfl rfl rfl⟩

/-! ## The theorems at concrete inputs -/

theorem normalize_priority_witness :
    normalize (GoTime.goRuntime GoTime.sampleWorld)
        { unix := 1700000000, unixMilli := 5, unixMicro := 7, in_ := "not-a-date",
          timezone := "XYZ" }
      = (.ok 1700000000, []) :=
  (normalize_priority (GoTime.goRuntime GoTime.sampleWorld)
    { unix := 1700000000, unixMilli := 5, unixMicro := 7, in_ := "not-a-date",
      timezone := "XYZ" } (by decide)).1 (by decide)

theorem normalize_no_input_reads_clock_witness :
    normalize (GoTime.goRuntime GoTime.sampleWorld) { Flags.defaults with timezone := "XYZ" }
      = (.ok 1800000000, [.now]) :=
  normalize_no_input_reads_clock (GoTime.goRuntime GoTime.sampleWorld)
    { Flags.defaults with timezone := "XYZ" } rfl rfl rfl rfl

theorem normalize_subsecond_truncates_witness :
    ∃ r : Int,
      normalize (GoTime.goRuntime GoTime.sampleWorld)
          { Flags.defaults with unixMilli := -1500, in_ := "x" } = (.ok r, []) ∧
      r = -1 :=
  let ⟨r, h, _, _, _, _, _, _, h1500, _⟩ :=
    (normalize_subsecond_truncates (GoTime.goRuntime GoTime.sampleWorld)
      { Flags.defaults with unixMilli := -1500, in_ := "x" } (by decide) rfl).1 (by decide)
  ⟨r, h, h1500 rfl⟩

theorem buildOutput_four_lines_witness :
    buildOutput (GoTime.goRuntime GoTime.sampleWorld) (-5) =
      (.ok "Normalized: -5\n-5 UTC\n-5 Asia/Tokyo\n-5 America/Los_Angeles\n",
        [.loadLocation "UTC", .loadLocation "America/Los_Angeles",
          .loadLocation "Asia/Tokyo"]) :=
  (buildOutput_four_lines (GoTime.goRuntime GoTime.sampleWorld) (-5) GoTime.utcLoc
    (GoTime.fixedZone "America/Los_Angeles" (-28800)) (GoTime.fixedZone "Asia/Tokyo" 32400)
    rfl rfl rfl).1

theorem getLocation_of_abbreviation_witness :
    (getLocationFromAbbreviation (GoTime.goRuntime GoTime.sampleWorld) "jSt").2
      = [.loadLocation "Asia/Tokyo"] ∧
    (getLocationFromAbbreviation (GoTime.goRuntime GoTime.sampleWorld) "jSt").1
      = .ok (GoTime.fixedZone "Asia/Tokyo" 32400) :=
  ⟨(getLocation_of_abbreviation (GoTime.goRuntime GoTime.sampleWorld) "jSt"
      ("JST", "Asia/Tokyo") (by decide) (by decide)).1,
    (getLocation_of_abbreviation (GoTime.goRuntime GoTime.sampleWorld) "jSt"
      ("JST", "Asia/Tokyo") (by decide) (by decide)).2.1 _ rfl⟩

open GoTime

/-! ## `Date` against the calendar -/

theorem sum_daysInYear (y : Nat) :
    ((List.range y).map daysInYear).sum = 365 * y + ((y + 3) / 4 - (y + 99) / 100 + (y + 399) / 400) := by
  induction y with
  | zero => rfl
  | succ n ih =>
    rw [List.range_succ, List.map_append, List.sum_append, ih]
    simp only [List.map_cons, List.map_nil, List.sum_cons, List.sum_nil, daysInYear]
    by_cases h : leapYear n = true
    · rw [if_pos h]
      simp only [leapYear, decide_eq_true_eq] at h
      omega
    · rw [if_neg h]
      simp only [leapYear, decide_eq_true_eq] at h
      omega

theorem dayNumber_epoch : dayNumber 1970 1 1 = 719528 := by
  simp only [dayNumber, sum_daysInYear]
  rfl

theorem norm_of_range (hi lo base : Int) (h0 : 0 ≤ lo) (h1 : lo < base) :
    norm hi lo base = (hi, lo) := by
  simp only [GoTime.norm, not_lt.mpr h0, if_false, ge_iff_le, not_le.mpr h1]

theorem isLeap_natCast (y : Nat) : isLeap (y : Int) = leapYear y := by
  simp only [isLeap, leapYear]
  rw [Int.tmod_eq_emod (by omega) (by omega), Int.tmod_eq_emod (by omega) (by omega),
    Int.tmod_eq_emod (by omega) (by omega)]
  congr 1
  apply propext
  omega

theorem toUint64_of_range (x : Int) (h0 : 0 ≤ x) (h1 : x < 18446744073709551616) :
    toUint64 x = x := by
  unfold toUint64
  exact Int.emod_eq_of_lt h0 (by norm_num; exact h1)

theorem toInt64_of_range (x : Int) (h0 : -9223372036854775808 ≤ x)
    (h1 : x < 9223372036854775808) : toInt64 x = x := by
  unfold toInt64
  have : (x + 2 ^ 63) % 2 ^ 64 = x + 2 ^ 63 :=
    Int.emod_eq_of_lt (by norm_num; omega) (by norm_num; omega)
  rw [this]
  ring

theorem daysSinceEpoch_natCast (y : Nat) (hy : y ≤ 9999) :
    daysSinceEpoch (y : Int) =
      106751990353566 + 365 * (y : Int) +
        (((y + 3) / 4 : Nat) : Int) - (((y + 99) / 100 : Nat) : Int) + (((y + 399) / 400 : Nat) : Int) := by
  have h1 : toUint64 ((y : Int) - absoluteZeroYear) = (y : Int) + 292277022399 := by
    rw [toUint64_of_range _ (by unfold absoluteZeroYear; omega) (by unfold absoluteZeroYear; omega)]
    unfold absoluteZeroYear
    ring
  simp only [daysSinceEpoch, h1]
  rw [toUint64_of_range _ (by omega) (by omega)]
  omega

/-- Days of the year before month `m`, from the table and the leap-day
adjustment of `Date`, against the sum of the month lengths. -/
theorem daysBefore_month (y m : Nat) (hm1 : 1 ≤ m) (hm2 : m ≤ 12) :
    daysBefore.getD ((m : Int) - 1 + 1 - 1).toNat 0 +
        (if leapYear y = true ∧ (m : Int) - 1 + 1 ≥ 3 then 1 else 0) =
      ((((List.range (m - 1)).map (fun i => daysInMonth y (i + 1))).sum : Nat) : Int) := by
  have e : ((m : Int) - 1 + 1 - 1).toNat = m - 1 := by omega
  rw [e]
  by_cases hl : leapYear y = true <;> interval_cases m <;>
    simp [daysBefore, daysInMonth, hl, List.range_succ]

theorem daysInMonth_le (y m : Nat) : daysInMonth y m ≤ 31 := by
  unfold daysInMonth
  split <;> try omega
  split <;> omega

theorem monthSum_le (y m : Nat) (hm2 : m ≤ 12) :
    ((List.range (m - 1)).map (fun i => daysInMonth y (i + 1))).sum ≤ 335 := by
  by_cases hl : leapYear y = true <;> interval_cases m <;>
    simp [daysInMonth, hl, List.range_succ]

theorem epochShift : absoluteToInternal + internalToUnix = -9223372028715321600 := by
  unfold absoluteToInternal internalToUnix absoluteZeroYear
  norm_num

theorem toInt64_add_toInt64 (A C : Int) (h0 : -9223372036854775808 ≤ A + C)
    (h1 : A + C < 9223372036854775808) : toInt64 (toInt64 A + C) = A + C := by
  unfold toInt64
  have e63 : (2 : Int) ^ 63 = 9223372036854775808 := by norm_num
  have e64 : (2 : Int) ^ 64 = 18446744073709551616 := by norm_num
  rw [e63, e64]
  omega

theorem unix_of_abs (D t : Int) (h0 : 106751990353566 ≤ D) (h1 : D ≤ 106751994100000)
    (ht0 : 0 ≤ t) (ht1 : t < 86400) :
    toInt64 (toInt64 (toUint64 (toUint64 (D * 86400) + toUint64 t)) +
        toInt64 (absoluteToInternal + internalToUnix)) =
      D * 86400 + t - 9223372028715321600 := by
  rw [toUint64_of_range t ht0 (by omega), toUint64_of_range (D * 86400) (by omega) (by omega),
    toUint64_of_range _ (by omega) (by omega)]
  rw [epochShift, toInt64_of_range (-9223372028715321600) (by omega) (by omega)]
  rw [toInt64_add_toInt64 _ _ (by omega) (by omega)]
  ring

/-- The day count of `Date` stays inside `uint64`, and its seconds wrap back
into `int64` at the Unix epoch. -/
theorem unix_of_days (E B D : Int) (hE0 : 106751990353566 ≤ E) (hE1 : E ≤ 106751994010000)
    (hB0 : 0 ≤ B) (hBS : B ≤ 335) (hD0 : 0 ≤ D) (hD1 : D ≤ 30) (k : Int)
    (hk : k = 0 ∨ k = 1) :
    toInt64 (toInt64 (toUint64 (toUint64 (toUint64 (
        (if k = 1 then toUint64 (toUint64 (E + toUint64 B) + 1) else toUint64 (E + toUint64 B))
          + toUint64 D) * 86400) + toUint64 0)) +
        toInt64 (absoluteToInternal + internalToUnix)) =
      86400 * (E + B + k + D - 106751991073094) := by
  have e1 : toUint64 B = B := toUint64_of_range B hB0 (by omega)
  have e2 : toUint64 (E + B) = E + B := toUint64_of_range (E + B) (by omega) (by omega)
  have e3 : toUint64 (E + B + 1) = E + B + 1 :=
    toUint64_of_range (E + B + 1) (by omega) (by omega)
  have e4 : toUint64 D = D := toUint64_of_range D hD0 (by omega)
  have a3 : (0 : Int) < 86400 := by norm_num
  rw [e1, e2, e3, e4]
  rcases hk with rfl | rfl
  · have a1 : 106751990353566 ≤ E + B + D := by omega
    have a2 : E + B + D ≤ 106751994100000 := by omega
    have e6 : toUint64 (E + B + D) = E + B + D :=
      toUint64_of_range _ (by omega) (by omega)
    have u := unix_of_abs (E + B + D) 0 a1 a2 (le_refl 0) a3
    rw [if_neg (by norm_num), e6, u]
    ring
  · have a1 : 106751990353566 ≤ E + B + 1 + D := by omega
    have a2 : E + B + 1 + D ≤ 106751994100000 := by omega
    have e6 : toUint64 (E + B + 1 + D) = E + B + 1 + D :=
      toUint64_of_range _ (by omega) (by omega)
    have u := unix_of_abs (E + B + 1 + D) 0 a1 a2 (le_refl 0) a3
    rw [if_pos rfl, e6, u]
    ring

theorem daysSinceEpoch_bounds (y : Nat) (hy : y ≤ 9999) :
    106751990353566 ≤ daysSinceEpoch (y : Int) ∧ daysSinceEpoch (y : Int) ≤ 106751994010000 := by
  rw [daysSinceEpoch_natCast y hy]
  omega

theorem dayNumber_cast (y S d : Nat) (hd : 1 ≤ d) :
    ((365 * y + ((y + 3) / 4 - (y + 99) / 100 + (y + 399) / 400) + S + (d - 1) : Nat) : Int)
      = 365 * (y : Int) + (((y + 3) / 4 : Nat) : Int) - (((y + 99) / 100 : Nat) : Int)
        + (((y + 399) / 400 : Nat) : Int) + (S : Int) + ((d : Int) - 1) := by
  omega

theorem daysBefore_bounds (m : Nat) (hm1 : 1 ≤ m) (hm2 : m ≤ 12) :
    0 ≤ daysBefore.getD ((m : Int) - 1 + 1 - 1).toNat 0 ∧
      daysBefore.getD ((m : Int) - 1 + 1 - 1).toNat 0 ≤ 335 := by
  have e : ((m : Int) - 1 + 1 - 1).toNat = m - 1 := by omega
  rw [e]
  interval_cases m <;> decide

theorem date_sec (y m d : Nat) (hy : y ≤ 9999) (hm1 : 1 ≤ m) (hm2 : m ≤ 12) (hd1 : 1 ≤ d)
    (hd2 : d ≤ daysInMonth y m) :
    (Date y m d 0 0 0 0 utcLoc).sec = 86400 * daysFromEpoch y m d := by
  have hn1 : GoTime.norm (y : Int) ((m : Int) - 1) 12 = ((y : Int), (m : Int) - 1) :=
    norm_of_range _ _ _ (by omega) (by omega)
  have hn2 : GoTime.norm 0 0 1000000000 = ((0 : Int), (0 : Int)) := by decide
  have hn3 : GoTime.norm 0 0 60 = ((0 : Int), (0 : Int)) := by decide
  have hn4 : GoTime.norm (d : Int) 0 24 = ((d : Int), (0 : Int)) :=
    norm_of_range _ _ _ (by omega) (by omega)
  have hd31 : d ≤ 31 := le_trans hd2 (daysInMonth_le y m)
  have hD0 : (0 : Int) ≤ (d : Int) - 1 := by omega
  have hD1 : (d : Int) - 1 ≤ 30 := by omega
  have hB := daysBefore_month y m hm1 hm2
  have hY := sum_daysInYear y
  have hE := daysSinceEpoch_natCast y hy
  have hE0 := (daysSinceEpoch_bounds y hy).1
  have hE1 := (daysSinceEpoch_bounds y hy).2
  have hB0 := (daysBefore_bounds m hm1 hm2).1
  have hBS := (daysBefore_bounds m hm1 hm2).2
  have hcast := dayNumber_cast y
    ((List.range (m - 1)).map (fun i => daysInMonth y (i + 1))).sum d hd1
  have e5 : (0 : Int) * 3600 + 0 * 60 + 0 = 0 := by norm_num
  simp only [daysFromEpoch, dayNumber_epoch]
  simp only [Date, hn1, hn2, hn3, hn4, isLeap_natCast, utcLoc, dayNumber, hY, ne_eq,
    not_true_eq_false, if_false]
  rw [hcast, e5, ← hB]
  by_cases hc : leapYear y = true ∧ (m : Int) - 1 + 1 ≥ 3
  · have h := unix_of_days _ _ _ hE0 hE1 hB0 hBS hD0 hD1 1 (Or.inr rfl)
    rw [if_pos rfl] at h
    rw [if_pos hc, if_pos hc, h, hE]
    push_cast
    ring
  · have h := unix_of_days _ _ _ hE0 hE1 hB0 hBS hD0 hD1 0 (Or.inl rfl)
    rw [if_neg (by norm_num)] at h
    rw [if_neg hc, if_neg hc, h, hE]
    push_cast
    ring

/-! ## The layout scanner -/

theorem chunk_nil : nextStdChunk [] = ([], none, []) := rfl

theorem chunk_year (rest : List Char) :
    nextStdChunk ('2' :: '0' :: '0' :: '6' :: rest) = ([], some .stdLongYear, rest) := by
  simp [nextStdChunk]

theorem chunk_zero (c : Char) (rest : List Char) :
    nextStdChunk ('0' :: c :: rest) =
      if c = '1' then ([], some .stdZeroMonth, rest)
      else if c = '2' then ([], some .stdZeroDay, rest)
      else if c = '4' then ([], some .stdZeroMinute, rest)
      else if c = '5' then ([], some .stdZeroSecond, rest)
      else ('0' :: (nextStdChunk (c :: rest)).1, (nextStdChunk (c :: rest)).2.1,
        (nextStdChunk (c :: rest)).2.2) := by
  rw [nextStdChunk]
  simp

theorem chunk_lit (c : Char) (rest : List Char) (h2 : c ≠ '2') (h0 : c ≠ '0') (h1 : c ≠ '1')
    (hp : c ≠ '.') (hc : c ≠ ',') :
    nextStdChunk (c :: rest) =
      (c :: (nextStdChunk rest).1, (nextStdChunk rest).2.1, (nextStdChunk rest).2.2) := by
  rw [nextStdChunk]
  simp [h2, h0, h1, hp, hc]

theorem chunk_month (rest : List Char) :
    nextStdChunk ('-' :: '0' :: '1' :: rest) = (['-'], some .stdZeroMonth, rest) := by
  rw [chunk_lit _ _ (by decide) (by decide) (by decide) (by decide) (by decide), chunk_zero]
  simp

theorem chunk_day (rest : List Char) :
    nextStdChunk ('-' :: '0' :: '2' :: rest) = (['-'], some .stdZeroDay, rest) := by
  rw [chunk_lit _ _ (by decide) (by decide) (by decide) (by decide) (by decide), chunk_zero]
  simp

theorem chunk_hour (rest : List Char) :
    nextStdChunk (' ' :: '1' :: '5' :: rest) = ([' '], some .stdHour, rest) := by
  rw [chunk_lit _ _ (by decide) (by decide) (by decide) (by decide) (by decide)]
  simp [nextStdChunk]

theorem chunk_minute (rest : List Char) :
    nextStdChunk (':' :: '0' :: '4' :: rest) = ([':'], some .stdZeroMinute, rest) := by
  rw [chunk_lit _ _ (by decide) (by decide) (by decide) (by decide) (by decide), chunk_zero]
  simp

theorem chunk_second (rest : List Char) :
    nextStdChunk (':' :: '0' :: '5' :: rest) = ([':'], some .stdZeroSecond, rest) := by
  rw [chunk_lit _ _ (by decide) (by decide) (by decide) (by decide) (by decide), chunk_zero]
  simp

theorem chunk_frac :
    nextStdChunk ['.', '0', '0', '0'] = ([], some (.stdFracSecond0 3), []) := by
  decide

/-! ## Digits and numbers -/

theorem isDigitChar_iff (c : Char) : isDigitChar c = true ↔ 48 ≤ c.toNat ∧ c.toNat ≤ 57 := by
  simp [isDigitChar]

theorem digitVal_range (c : Char) (h : isDigitChar c = true) :
    0 ≤ digitVal c ∧ digitVal c ≤ 9 := by
  rw [isDigitChar_iff] at h
  unfold digitVal
  omega

theorem digit_ne_sign (c : Char) (h : isDigitChar c = true) : c ≠ '-' ∧ c ≠ '+' := by
  rw [isDigitChar_iff] at h
  refine ⟨?_, ?_⟩ <;> intro e <;> subst e <;> revert h <;> decide

theorem isDigit_zero (c : Char) (cs : List Char) : isDigit (c :: cs) 0 = isDigitChar c := rfl

theorem isDigit_one (a c : Char) (cs : List Char) :
    isDigit (a :: c :: cs) 1 = isDigitChar c := rfl

theorem getnum_two (a b : Char) (rest : List Char) (fixed : Bool)
    (ha : isDigitChar a = true) (hb : isDigitChar b = true) :
    getnum (a :: b :: rest) fixed = some (digitVal a * 10 + digitVal b, rest) := by
  simp [getnum, isDigit_zero, isDigit_one, ha, hb]

/-- A successful `getnum` with `fixed` consumed two digits. -/
theorem getnum_fixed_inv (v : List Char) (n : Int) (rest : List Char)
    (h : getnum v true = some (n, rest)) :
    ∃ a b, v = a :: b :: rest ∧ isDigitChar a = true ∧ isDigitChar b = true ∧
      n = digitVal a * 10 + digitVal b := by
  rcases v with _ | ⟨a, _ | ⟨b, v⟩⟩
  · simp [getnum, isDigit] at h
  · simp [getnum, isDigit] at h
  · by_cases ha : isDigitChar a = true
    · by_cases hb : isDigitChar b = true
      · rw [getnum_two a b v true ha hb] at h
        simp only [Option.some.injEq, Prod.mk.injEq] at h
        exact ⟨a, b, by rw [h.2], ha, hb, h.1.symm⟩
      · simp [getnum, isDigit_zero, isDigit_one, ha, hb] at h
    · simp [getnum, isDigit_zero, ha] at h

/-- A successful `getnum` without `fixed` consumed one digit not followed by a
digit, or two digits. -/
theorem getnum_free_inv (v : List Char) (n : Int) (rest : List Char)
    (h : getnum v false = some (n, rest)) :
    (∃ a b, v = a :: b :: rest ∧ isDigitChar a = true ∧ isDigitChar b = true) ∨
    (∃ a, v = a :: rest ∧ isDigitChar a = true ∧ isDigit rest 0 = false) := by
  rcases v with _ | ⟨a, v⟩
  · simp [getnum, isDigit] at h
  · by_cases ha : isDigitChar a = true
    · rcases v with _ | ⟨b, v⟩
      · simp [getnum, isDigit, ha] at h
        right
        exact ⟨a, by rw [h.2], ha, by rw [h.2]; rfl⟩
      · by_cases hb : isDigitChar b = true
        · rw [getnum_two a b v false ha hb] at h
          simp only [Option.some.injEq, Prod.mk.injEq] at h
          left
          exact ⟨a, b, by rw [h.2], ha, hb⟩
        · simp [getnum, isDigit_zero, isDigit_one, ha, hb] at h
          right
          refine ⟨a, by rw [h.2], ha, ?_⟩
          rw [← h.2, isDigit_zero]
          simpa using hb
    · simp [getnum, isDigit_zero, ha] at h

theorem tdiv_bound : (2 ^ 63 : Int).tdiv 10 = 922337203685477580 := by decide

theorem leadingInt_digit (c : Char) (cs : List Char) (x : Int) (hc : isDigitChar c = true)
    (hx0 : 0 ≤ x) (hx1 : x ≤ 1000000000) :
    leadingInt (c :: cs) x = leadingInt cs (x * 10 + digitVal c) := by
  have hv := digitVal_range c hc
  have h1 : ¬ x > (2 ^ 63 : Int).tdiv 10 := by rw [tdiv_bound]; omega
  have h2 : ¬ x * 10 + digitVal c > 2 ^ 63 := by
    have : (2 : Int) ^ 63 = 9223372036854775808 := by norm_num
    rw [this]
    omega
  simp only [leadingInt, hc, Bool.not_true, Bool.false_eq_true, if_false, h1, h2]

theorem leadingInt_nondigit (c : Char) (cs : List Char) (x : Int) (hc : isDigitChar c = false) :
    leadingInt (c :: cs) x = some (x, c :: cs) := by
  simp [leadingInt, hc]

/-- When `leadingInt` leaves nothing over, every byte was a digit. -/
theorem leadingInt_all (cs : List Char) :
    ∀ (x q : Int), leadingInt cs x = some (q, []) → ∀ c ∈ cs, isDigitChar c = true := by
  induction cs with
  | nil => intro x q _ c hc; simp at hc
  | cons a cs ih =>
    intro x q h c hc
    by_cases ha : isDigitChar a = true
    · simp only [leadingInt, ha, Bool.not_true, Bool.false_eq_true, if_false] at h
      split at h
      · simp at h
      · split at h
        · simp at h
        · rcases List.mem_cons.mp hc with rfl | hc
          · exact ha
          · exact ih _ _ h c hc
    · have ha' : isDigitChar a = false := by simpa using ha
      rw [leadingInt_nondigit a cs x ha'] at h
      simp at h

theorem atoi_four (a b c d : Char) (ha : isDigitChar a = true) (hb : isDigitChar b = true)
    (hc : isDigitChar c = true) (hd : isDigitChar d = true) :
    atoi [a, b, c, d] =
      some (((digitVal a * 10 + digitVal b) * 10 + digitVal c) * 10 + digitVal d) := by
  have va := digitVal_range a ha
  have vb := digitVal_range b hb
  have vc := digitVal_range c hc
  have vd := digitVal_range d hd
  have hs := digit_ne_sign a ha
  have e1 : ([a, b, c, d] : List Char).head? = some a := rfl
  simp only [atoi, e1, Option.some.injEq, hs.1, hs.2, or_self, if_false, decide_False]
  rw [leadingInt_digit a _ 0 ha (le_refl 0) (by norm_num),
    leadingInt_digit b _ _ hb (by omega) (by omega),
    leadingInt_digit c _ _ hc (by omega) (by omega),
    leadingInt_digit d _ _ hd (by omega) (by omega)]
  simp [leadingInt]

/-! ## One iteration of the `parse` loop -/

theorem skip_nil (v : List Char) : skip v [] = some v := by
  cases v <;> rfl

theorem skip_lit_inv (p : Char) (hp : p ≠ ' ') (v v2 : List Char)
    (h : skip v [p] = some v2) : v = p :: v2 := by
  rcases v with _ | ⟨a, vs⟩
  · simp [skip, hp] at h
  · by_cases ha : a = p
    · subst ha
      simp [skip, hp, skip_nil] at h
      rw [h]
    · simp [skip, hp, ha] at h

theorem skip_lit (p : Char) (hp : p ≠ ' ') (v : List Char) : skip (p :: v) [p] = some v := by
  simp [skip, hp, skip_nil]

theorem skip_space_inv (v v2 : List Char) (h : skip v [' '] = some v2) :
    (v = [] ∧ v2 = []) ∨ ∃ rest, v = ' ' :: rest ∧ v2 = cutspace rest := by
  rcases v with _ | ⟨a, vs⟩
  · left
    simp [skip, skip_nil, cutspace] at h
    exact ⟨rfl, h⟩
  · right
    by_cases ha : a = ' '
    · subst ha
      simp [skip, skip_nil, cutspace] at h
      exact ⟨vs, rfl, by rw [← h]; simp [cutspace]⟩
    · simp [skip, ha] at h

theorem parseLoop_succ (fuel : Nat) (layout value : List Char) (fs : Fields) :
    parseLoop (fuel + 1) layout value fs =
      match skip value (nextStdChunk layout).1 with
      | none => .error "cannot parse"
      | some value =>
        match (nextStdChunk layout).2.1 with
        | none => if value ≠ [] then .error ": extra text" else .ok fs
        | some std =>
          match parseStd std (nextStdChunk layout).2.2 value fs with
          | .bad => .error "cannot parse"
          | .outOfRange what => .error (": " ++ what ++ " out of range")
          | .ok (value, fs) => parseLoop fuel (nextStdChunk layout).2.2 value fs := rfl

/-- The shape of one iteration that ends in success: the prefix was skipped,
the element was scanned, and the loop went on with the rest. -/
theorem parseLoop_step_inv (fuel : Nat) (layout value : List Char) (fs r : Fields)
    (pfx : List Char) (std : Std) (suffix : List Char)
    (hchunk : nextStdChunk layout = (pfx, some std, suffix))
    (h : parseLoop (fuel + 1) layout value fs = .ok r) :
    ∃ v1 v2 fs2, skip value pfx = some v1 ∧ parseStd std suffix v1 fs = .ok (v2, fs2) ∧
      parseLoop fuel suffix v2 fs2 = .ok r := by
  rw [parseLoop_succ, hchunk] at h
  simp only at h
  cases hs : skip value pfx with
  | none => rw [hs] at h; simp at h
  | some v1 =>
    rw [hs] at h
    simp only at h
    cases hp : parseStd std suffix v1 fs with
    | bad => rw [hp] at h; simp at h
    | outOfRange w => rw [hp] at h; simp at h
    | ok p =>
      rw [hp] at h
      obtain ⟨v2, fs2⟩ := p
      exact ⟨v1, v2, fs2, rfl, hp, h⟩

theorem parseLoop_step (fuel : Nat) (layout value : List Char) (fs : Fields)
    (pfx : List Char) (std : Std) (suffix v1 v2 : List Char) (fs2 : Fields)
    (hchunk : nextStdChunk layout = (pfx, some std, suffix))
    (hs : skip value pfx = some v1) (hp : parseStd std suffix v1 fs = .ok (v2, fs2)) :
    parseLoop (fuel + 1) layout value fs = parseLoop fuel suffix v2 fs2 := by
  rw [parseLoop_succ, hchunk]
  simp only [hs, hp]

theorem parseLoop_end (fuel : Nat) (fs : Fields) : parseLoop (fuel + 1) [] [] fs = .ok fs := by
  rw [parseLoop_succ, chunk_nil]
  simp [skip_nil]

theorem parseLoop_end_inv (fuel : Nat) (value : List Char) (fs r : Fields)
    (h : parseLoop (fuel + 1) [] value fs = .ok r) : value = [] := by
  rw [parseLoop_succ, chunk_nil] at h
  simp only [skip_nil] at h
  by_contra hne
  simp [hne] at h

/-! ## The elements, scanned -/

theorem parseStd_year (lay : List Char) (a b c d : Char) (rest : List Char) (fs : Fields)
    (ha : isDigitChar a = true) (hb : isDigitChar b = true) (hc : isDigitChar c = true)
    (hd : isDigitChar d = true) :
    parseStd .stdLongYear lay (a :: b :: c :: d :: rest) fs =
      .ok (rest, { fs with
        year := ((digitVal a * 10 + digitVal b) * 10 + digitVal c) * 10 + digitVal d }) := by
  have e : (a :: b :: c :: d :: rest).take 4 = [a, b, c, d] := rfl
  simp [parseStd, isDigit_zero, ha, e, atoi_four a b c d ha hb hc hd]

theorem parseStd_year_inv (lay v v2 : List Char) (fs fs2 : Fields)
    (h : parseStd .stdLongYear lay v fs = .ok (v2, fs2)) :
    ∃ a b c d, v = a :: b :: c :: d :: v2 ∧ isDigitChar a = true ∧ isDigitChar b = true ∧
      isDigitChar c = true ∧ isDigitChar d = true := by
  rcases v with _ | ⟨a, _ | ⟨b, _ | ⟨c, _ | ⟨d, rest⟩⟩⟩⟩
  · simp [parseStd] at h
  · simp [parseStd] at h
  · simp [parseStd] at h
  · simp [parseStd] at h
  · have e : (a :: b :: c :: d :: rest).take 4 = [a, b, c, d] := rfl
    have e2 : (a :: b :: c :: d :: rest).drop 4 = rest := rfl
    have hlen : ¬ (a :: b :: c :: d :: rest).length < 4 := by simp
    simp only [parseStd, hlen, false_or, isDigit_zero, e, e2] at h
    by_cases ha : isDigitChar a = true
    · simp only [ha, Bool.not_true, Bool.false_eq_true, if_false] at h
      cases hat : atoi [a, b, c, d] with
      | none => rw [hat] at h; simp at h
      | some y =>
        rw [hat] at h
        simp only [Scan.ok.injEq, Prod.mk.injEq] at h
        have hs := digit_ne_sign a ha
        have e1 : ([a, b, c, d] : List Char).head? = some a := rfl
        simp only [atoi, e1, Option.some.injEq, hs.1, hs.2, or_self, if_false,
          decide_False] at hat
        cases hl : leadingInt [a, b, c, d] 0 with
        | none => rw [hl] at hat; simp at hat
        | some p =>
          obtain ⟨q, rem⟩ := p
          rw [hl] at hat
          by_cases hr : rem = []
          · subst hr
            have hall := leadingInt_all _ _ _ hl
            exact ⟨a, b, c, d, by rw [h.1], ha, hall b (by simp), hall c (by simp),
              hall d (by simp)⟩
          · simp [hr] at hat
    · simp [ha] at h

theorem parseStd_month (lay : List Char) (a b : Char) (rest : List Char) (fs : Fields)
    (ha : isDigitChar a = true) (hb : isDigitChar b = true)
    (h1 : 1 ≤ digitVal a * 10 + digitVal b) (h2 : digitVal a * 10 + digitVal b ≤ 12) :
    parseStd .stdZeroMonth lay (a :: b :: rest) fs =
      .ok (rest, { fs with month := digitVal a * 10 + digitVal b }) := by
  have hr : ¬ (digitVal a * 10 + digitVal b ≤ 0 ∨ 12 < digitVal a * 10 + digitVal b) := by
    omega
  simp only [parseStd, getnum_two a b rest true ha hb, hr, if_false]

theorem parseStd_month_inv (lay v v2 : List Char) (fs fs2 : Fields)
    (h : parseStd .stdZeroMonth lay v fs = .ok (v2, fs2)) :
    ∃ a b, v = a :: b :: v2 ∧ isDigitChar a = true ∧ isDigitChar b = true := by
  simp only [parseStd] at h
  cases hg : getnum v true with
  | none => rw [hg] at h; simp at h
  | some p =>
    obtain ⟨n, rest⟩ := p
    rw [hg] at h
    simp only at h
    split at h
    · simp at h
    · simp only [Scan.ok.injEq, Prod.mk.injEq] at h
      obtain ⟨a, b, hv, ha, hb, _⟩ := getnum_fixed_inv v n rest hg
      exact ⟨a, b, by rw [hv, h.1], ha, hb⟩

theorem parseStd_day (lay : List Char) (a b : Char) (rest : List Char) (fs : Fields)
    (ha : isDigitChar a = true) (hb : isDigitChar b = true) :
    parseStd .stdZeroDay lay (a :: b :: rest) fs =
      .ok (rest, { fs with day := digitVal a * 10 + digitVal b }) := by
  simp only [parseStd, getnum_two a b rest true ha hb]

theorem parseStd_day_inv (lay v v2 : List Char) (fs fs2 : Fields)
    (h : parseStd .stdZeroDay lay v fs = .ok (v2, fs2)) :
    ∃ a b, v = a :: b :: v2 ∧ isDigitChar a = true ∧ isDigitChar b = true := by
  simp only [parseStd] at h
  cases hg : getnum v true with
  | none => rw [hg] at h; simp at h
  | some p =>
    obtain ⟨n, rest⟩ := p
    rw [hg] at h
    simp only [Scan.ok.injEq, Prod.mk.injEq] at h
    obtain ⟨a, b, hv, ha, hb, _⟩ := getnum_fixed_inv v n rest hg
    exact ⟨a, b, by rw [hv, h.1], ha, hb⟩

theorem parseStd_minute_inv (lay v v2 : List Char) (fs fs2 : Fields)
    (h : parseStd .stdZeroMinute lay v fs = .ok (v2, fs2)) :
    ∃ a b, v = a :: b :: v2 ∧ isDigitChar a = true ∧ isDigitChar b = true := by
  simp only [parseStd] at h
  cases hg : getnum v true with
  | none => rw [hg] at h; simp at h
  | some p =>
    obtain ⟨n, rest⟩ := p
    rw [hg] at h
    simp only at h
    split at h
    · simp at h
    · simp only [Scan.ok.injEq, Prod.mk.injEq] at h
      obtain ⟨a, b, hv, ha, hb, _⟩ := getnum_fixed_inv v n rest hg
      exact ⟨a, b, by rw [hv, h.1], ha, hb⟩

theorem parseStd_hour_inv (lay v v2 : List Char) (fs fs2 : Fields)
    (h : parseStd .stdHour lay v fs = .ok (v2, fs2)) :
    (∃ a b, v = a :: b :: v2 ∧ isDigitChar a = true ∧ isDigitChar b = true) ∨
    (∃ a, v = a :: v2 ∧ isDigitChar a = true ∧ isDigit v2 0 = false) := by
  simp only [parseStd] at h
  cases hg : getnum v false with
  | none => rw [hg] at h; simp at h
  | some p =>
    obtain ⟨n, rest⟩ := p
    rw [hg] at h
    simp only at h
    split at h
    · simp at h
    · simp only [Scan.ok.injEq, Prod.mk.injEq] at h
      have := getnum_free_inv v n rest hg
      rw [h.1] at this
      exact this

/-- The fraction element: a comma or period, then three bytes that `atoi`
accepts, which are three digits or a sign and two digits. -/
theorem parseStd_frac_inv (lay v v2 : List Char) (fs fs2 : Fields)
    (h : parseStd (.stdFracSecond0 3) lay v fs = .ok (v2, fs2)) :
    ∃ f g x y, v = f :: g :: x :: y :: v2 ∧ commaOrPeriod f = true ∧
      (isDigitChar g = true ∨ g = '+' ∨ g = '-') ∧ isDigitChar x = true ∧
      isDigitChar y = true := by
  rcases v with _ | ⟨f, _ | ⟨g, _ | ⟨x, _ | ⟨y, rest⟩⟩⟩⟩
  · simp [parseStd] at h
  · simp [parseStd] at h
  · simp [parseStd] at h
  · simp [parseStd] at h
  · have hlen : ¬ (f :: g :: x :: y :: rest).length < 1 + 3 := by simp
    have e1 : ((f :: g :: x :: y :: rest).take (1 + 3)).drop 1 = [g, x, y] := rfl
    have e2 : (f :: g :: x :: y :: rest).drop (1 + 3) = rest := rfl
    have e3 : (f :: g :: x :: y :: rest).headD ' ' = f := rfl
    have e4 : ¬ (1 + 3 > 10) := by omega
    simp only [parseStd, hlen, if_false, parseNanoseconds, e3, e4, e1, e2] at h
    by_cases hf : commaOrPeriod f = true
    · simp only [hf, Bool.not_true, Bool.false_eq_true, if_false] at h
      cases hat : atoi [g, x, y] with
      | none => rw [hat] at h; simp at h
      | some ns =>
        rw [hat] at h
        have hv2 : rest = v2 := by
          by_cases hneg : ns < 0
          · simp [hneg] at h
          · simp only [hneg, if_false, Scan.ok.injEq, Prod.mk.injEq] at h
            exact h.1
        subst hv2
        have hh : ([g, x, y] : List Char).head? = some g := rfl
        simp only [atoi, hh, Option.some.injEq] at hat
        by_cases hsign : g = '-' ∨ g = '+'
        · simp only [hsign, if_true] at hat
          have ed : ([g, x, y] : List Char).drop 1 = [x, y] := rfl
          rw [ed] at hat
          cases hl : leadingInt [x, y] 0 with
          | none => rw [hl] at hat; simp at hat
          | some p =>
            obtain ⟨q, rem⟩ := p
            rw [hl] at hat
            by_cases hr : rem = []
            · subst hr
              have hall := leadingInt_all _ _ _ hl
              exact ⟨f, g, x, y, rfl, hf, Or.inr hsign.symm, hall x (by simp),
                hall y (by simp)⟩
            · simp [hr] at hat
        · simp only [hsign, if_false] at hat
          cases hl : leadingInt [g, x, y] 0 with
          | none => rw [hl] at hat; simp at hat
          | some p =>
            obtain ⟨q, rem⟩ := p
            rw [hl] at hat
            by_cases hr : rem = []
            · subst hr
              have hall := leadingInt_all _ _ _ hl
              exact ⟨f, g, x, y, rfl, hf, Or.inl (hall g (by simp)), hall x (by simp),
                hall y (by simp)⟩
            · simp [hr] at hat
    · simp [hf] at h

/-- The seconds element: two digits, after which the value is left as it is,
or, when the layout has no fraction next, loses a fraction of at least two
bytes. -/
theorem parseStd_second_inv (lay v v2 : List Char) (fs fs2 : Fields)
    (h : parseStd .stdZeroSecond lay v fs = .ok (v2, fs2)) :
    ∃ a b w, v = a :: b :: w ∧ isDigitChar a = true ∧ isDigitChar b = true ∧
      (v2 = w ∨ ((∀ k, (nextStdChunk lay).2.1 ≠ some (.stdFracSecond0 k)) ∧
        ∃ n, 2 ≤ n ∧ n ≤ w.length ∧ v2 = w.drop n)) := by
  simp only [parseStd] at h
  cases hg : getnum v true with
  | none => rw [hg] at h; simp at h
  | some p =>
    obtain ⟨sec, w⟩ := p
    rw [hg] at h
    simp only at h
    obtain ⟨a, b, hv, ha, hb, _⟩ := getnum_fixed_inv v sec w hg
    refine ⟨a, b, w, hv, ha, hb, ?_⟩
    by_cases hr : sec < 0 ∨ 60 ≤ sec
    · simp [hr] at h
    · simp only [hr, if_false] at h
      by_cases hc : w.length ≥ 2 ∧ commaOrPeriod (w.headD ' ') = true ∧ isDigit w 1 = true
      · simp only [hc, and_self, if_true] at h
        cases hn : (nextStdChunk lay).2.1 with
        | none =>
          rw [hn] at h
          simp only at h
          right
          refine ⟨fun k => by simp, 2 + ((w.drop 2).takeWhile isDigitChar).length, by omega, ?_, ?_⟩
          · have := (List.takeWhile_sublist (l := w.drop 2) isDigitChar).length_le
            rw [List.length_drop] at this
            omega
          · cases hp : parseNanoseconds w (2 + ((w.drop 2).takeWhile isDigitChar).length) with
            | ok ns =>
              rw [hp] at h
              simp only [Scan.ok.injEq, Prod.mk.injEq] at h
              exact h.1.symm
            | outOfRange s => rw [hp] at h; simp at h
            | bad => rw [hp] at h; simp at h
        | some std =>
          rw [hn] at h
          cases std with
          | stdFracSecond0 k =>
            simp only [Scan.ok.injEq, Prod.mk.injEq] at h
            exact Or.inl h.1.symm
          | stdLongYear | stdZeroMonth | stdZeroDay | stdHour | stdZeroMinute | stdZeroSecond =>
            simp only at h
            right
            refine ⟨fun k => by simp, 2 + ((w.drop 2).takeWhile isDigitChar).length, by omega,
              ?_, ?_⟩
            · have := (List.takeWhile_sublist (l := w.drop 2) isDigitChar).length_le
              rw [List.length_drop] at this
              omega
            · cases hp : parseNanoseconds w (2 + ((w.drop 2).takeWhile isDigitChar).length) with
              | ok ns =>
                rw [hp] at h
                simp only [Scan.ok.injEq, Prod.mk.injEq] at h
                exact h.1.symm
              | outOfRange s => rw [hp] at h; simp at h
              | bad => rw [hp] at h; simp at h
      · simp only [hc, if_false, Scan.ok.injEq, Prod.mk.injEq] at h
        exact Or.inl h.1.symm

/-! ## The fuel of the loop -/

/-- The suffix `nextStdChunk` returns is never longer than the layout, and is
shorter when an element was found. -/
theorem nextStdChunk_suffix (l : List Char) :
    (nextStdChunk l).2.2.length ≤ l.length ∧
      ((nextStdChunk l).2.1 ≠ none → (nextStdChunk l).2.2.length < l.length) := by
  induction l with
  | nil => exact ⟨le_refl 0, fun h => absurd rfl h⟩
  | cons c rest ih =>
    rw [nextStdChunk]
    simp only
    split_ifs <;>
      simp only [List.length_cons, List.length_drop, ne_eq, not_false_eq_true,
        not_true_eq_false, reduceCtorEq, forall_const, false_implies, and_true] <;>
      omega

theorem ne_fuel_message (what : String) :
    ": " ++ what ++ " out of range" ≠ "layout not consumed" := by
  intro h
  have := congrArg String.data h
  simp only [String.data_append] at this
  simp at this

/-- With more fuel than the layout is long, the loop never stops for lack of
fuel. -/
theorem parseLoop_fuel (fuel : Nat) :
    ∀ (layout value : List Char) (fs : Fields), layout.length < fuel →
      parseLoop fuel layout value fs ≠ .error "layout not consumed" := by
  induction fuel with
  | zero => intro layout value fs h; omega
  | succ n ih =>
    intro layout value fs hlen
    rw [parseLoop_succ]
    cases hs : skip value (nextStdChunk layout).1 with
    | none => simp
    | some v1 =>
      simp only
      cases hc : (nextStdChunk layout).2.1 with
      | none =>
        simp only
        split <;> simp
      | some std =>
        simp only
        cases hp : parseStd std (nextStdChunk layout).2.2 v1 fs with
        | bad => simp
        | outOfRange what =>
          simp only [ne_eq, Except.error.injEq]
          exact ne_fuel_message what
        | ok p =>
          obtain ⟨v2, fs2⟩ := p
          simp only
          apply ih
          have := (nextStdChunk_suffix layout).2 (by rw [hc]; simp)
          omega

/-! ## The date layout on a zero-padded date -/

theorem digitChar_toNat (k : Nat) (hk : k < 10) : (digitChar k).toNat = 48 + k :=
  char_toNat_ofNat _ (by omega)

theorem isDigitChar_digitChar (k : Nat) (hk : k < 10) : isDigitChar (digitChar k) = true := by
  rw [isDigitChar_iff, digitChar_toNat k hk]
  omega

theorem digitVal_digitChar (k : Nat) (hk : k < 10) : digitVal (digitChar k) = k := by
  unfold digitVal
  rw [digitChar_toNat k hk]
  omega

theorem utf8Size_of_ascii (c : Char) (h : c.toNat < 128) : c.utf8Size = 1 := by
  have h1 : c.val ≤ 127 := by
    rw [UInt32.le_def]
    show c.val.val ≤ (127 : UInt32).val
    have : c.val.val.val = c.toNat := rfl
    rw [Fin.le_def, this]
    show c.toNat ≤ 127
    omega
  have h2 : c.val ≤ UInt32.ofNatCore 127 (by decide) := h1
  unfold Char.utf8Size
  exact if_pos h2

theorem utf8ByteSize_go_ascii (cs : List Char) (h : ∀ c ∈ cs, c.toNat < 128) :
    String.utf8ByteSize.go cs = cs.length := by
  induction cs with
  | nil => rfl
  | cons c cs ih =>
    simp only [String.utf8ByteSize.go, List.length_cons]
    rw [ih (fun x hx => h x (List.mem_cons_of_mem _ hx)), utf8Size_of_ascii c (h c (by simp))]

theorem utf8ByteSize_of_ascii (s : String) (h : ∀ c ∈ s.data, c.toNat < 128) :
    s.utf8ByteSize = s.data.length := by
  obtain ⟨cs⟩ := s
  exact utf8ByteSize_go_ascii cs h

theorem isoDate_byteSize (y m d : Nat) (hy : y ≤ 9999) (hm : m ≤ 99) (hd : d ≤ 99) :
    (isoDate y m d).utf8ByteSize = 10 := by
  rw [utf8ByteSize_of_ascii]
  · rfl
  · intro c hc
    simp only [isoDate, fourDigits, twoDigits, List.cons_append, List.nil_append,
      List.mem_cons, List.mem_singleton, List.not_mem_nil, or_false] at hc
    rcases hc with rfl | rfl | rfl | rfl | rfl | rfl | rfl | rfl | rfl | rfl
    all_goals first
      | decide
      | (rw [digitChar_toNat _ (by omega)]; omega)

theorem dateLayout_data :
    "2006-01-02".data = ['2', '0', '0', '6', '-', '0', '1', '-', '0', '2'] := rfl

/-- The loop on the layout "2006-01-02" and a value of four digits, a dash, two
digits of a month from 1 to 12, a dash and two digits. -/
theorem parseLoop_date (a b c d e f g h : Char)
    (ha : isDigitChar a = true) (hb : isDigitChar b = true) (hc : isDigitChar c = true)
    (hd : isDigitChar d = true) (he : isDigitChar e = true) (hf : isDigitChar f = true)
    (hg : isDigitChar g = true) (hh : isDigitChar h = true)
    (hm1 : 1 ≤ digitVal e * 10 + digitVal f) (hm2 : digitVal e * 10 + digitVal f ≤ 12) :
    parseLoop 11 "2006-01-02".data [a, b, c, d, '-', e, f, '-', g, h] Fields.init =
      .ok { Fields.init with
        year := ((digitVal a * 10 + digitVal b) * 10 + digitVal c) * 10 + digitVal d
        month := digitVal e * 10 + digitVal f
        day := digitVal g * 10 + digitVal h } := by
  rw [dateLayout_data]
  rw [parseLoop_step 10 _ _ _ _ _ _ _ _ _ (chunk_year _) (skip_nil _)
    (parseStd_year _ a b c d _ _ ha hb hc hd)]
  rw [parseLoop_step 9 _ _ _ _ _ _ _ _ _ (chunk_month _) (skip_lit '-' (by decide) _)
    (parseStd_month _ e f _ _ he hf hm1 hm2)]
  rw [parseLoop_step 8 _ _ _ _ _ _ _ _ _ (chunk_day _) (skip_lit '-' (by decide) _)
    (parseStd_day _ g h _ _ hg hh)]
  rw [parseLoop_end]

theorem daysIn_natCast (y m : Nat) (hm1 : 1 ≤ m) (hm2 : m ≤ 12) :
    daysIn (m : Int) (y : Int) = (daysInMonth y m : Int) := by
  unfold daysIn
  rw [isLeap_natCast]
  by_cases hl : leapYear y = true <;> interval_cases m <;>
    simp [daysBefore, daysInMonth, hl]

theorem fourDigits_value (y : Nat) :
    ((((y / 1000 : Nat) : Int) * 10 + ((y / 100 % 10 : Nat) : Int)) * 10
      + ((y / 10 % 10 : Nat) : Int)) * 10 + ((y % 10 : Nat) : Int) = (y : Int) := by
  omega

theorem twoDigits_value (n : Nat) :
    ((n / 10 : Nat) : Int) * 10 + ((n % 10 : Nat) : Int) = (n : Int) := by
  omega

/-- The library parse of a zero-padded valid date against "2006-01-02": midnight
of that date in the given location. -/
theorem parseInLocation_isoDate (y m d : Nat) (loc : Location) (hv : validDate y m d) :
    ParseInLocation "2006-01-02" (isoDate y m d) loc = .ok (Date y m d 0 0 0 0 loc) := by
  obtain ⟨hy, hm1, hm2, hd1, hd2⟩ := hv
  have hd31 : d ≤ 31 := le_trans hd2 (daysInMonth_le y m)
  have k1 : y / 1000 < 10 := by omega
  have k2 : y / 100 % 10 < 10 := by omega
  have k3 : y / 10 % 10 < 10 := by omega
  have k4 : y % 10 < 10 := by omega
  have k5 : m / 10 < 10 := by omega
  have k6 : m % 10 < 10 := by omega
  have k7 : d / 10 < 10 := by omega
  have k8 : d % 10 < 10 := by omega
  have ey : ((digitVal (digitChar (y / 1000)) * 10 + digitVal (digitChar (y / 100 % 10))) * 10
      + digitVal (digitChar (y / 10 % 10))) * 10 + digitVal (digitChar (y % 10)) = (y : Int) := by
    rw [digitVal_digitChar _ k1, digitVal_digitChar _ k2, digitVal_digitChar _ k3,
      digitVal_digitChar _ k4]
    exact fourDigits_value y
  have em : digitVal (digitChar (m / 10)) * 10 + digitVal (digitChar (m % 10)) = (m : Int) := by
    rw [digitVal_digitChar _ k5, digitVal_digitChar _ k6]
    exact twoDigits_value m
  have ed : digitVal (digitChar (d / 10)) * 10 + digitVal (digitChar (d % 10)) = (d : Int) := by
    rw [digitVal_digitChar _ k7, digitVal_digitChar _ k8]
    exact twoDigits_value d
  have hloop := parseLoop_date (digitChar (y / 1000)) (digitChar (y / 100 % 10))
    (digitChar (y / 10 % 10)) (digitChar (y % 10)) (digitChar (m / 10)) (digitChar (m % 10))
    (digitChar (d / 10)) (digitChar (d % 10))
    (isDigitChar_digitChar _ k1) (isDigitChar_digitChar _ k2) (isDigitChar_digitChar _ k3)
    (isDigitChar_digitChar _ k4) (isDigitChar_digitChar _ k5) (isDigitChar_digitChar _ k6)
    (isDigitChar_digitChar _ k7) (isDigitChar_digitChar _ k8)
    (by rw [em]; omega) (by rw [em]; omega)
  rw [ey, em, ed] at hloop
  have hdata : (isoDate y m d).data =
      [digitChar (y / 1000), digitChar (y / 100 % 10), digitChar (y / 10 % 10),
        digitChar (y % 10), '-', digitChar (m / 10), digitChar (m % 10), '-',
        digitChar (d / 10), digitChar (d % 10)] := rfl
  have hfuel : "2006-01-02".data.length + 1 = 11 := rfl
  have hmneg : ¬ ((m : Int) < 0) := by omega
  have hdneg : ¬ ((d : Int) < 0) := by omega
  have hday : ¬ ((d : Int) < 1 ∨ (d : Int) > daysIn (m : Int) (y : Int)) := by
    rw [daysIn_natCast y m hm1 hm2]
    omega
  unfold ParseInLocation
  rw [hfuel, hdata, hloop]
  simp only [Fields.init, hmneg, hdneg, if_false, hday]

theorem isoDate_ne_empty (y m d : Nat) : isoDate y m d ≠ "" := by
  intro h
  have := congrArg String.data h
  simp [isoDate, fourDigits] at this

theorem getLocation_utc (w : World) :
    getLocationFromAbbreviation (goRuntime w) "UTC" = (.ok utcLoc, [.loadLocation "UTC"]) := by
  have hu : stringsToUpper (goRuntime w).upperCase "UTC" = "UTC" := by
    rw [stringsToUpper_of_ascii _ _ (by decide)]
    decide
  rw [getLocation_of_key (goRuntime w) "UTC" "UTC" "UTC" hu (by decide)]
  rfl

/-- C7: for every valid Gregorian date with a four-digit year, `normalize` with
`-in` the zero-padded "YYYY-MM-DD", `-tz=UTC` and the numeric flags zero
succeeds with 86400 times the number of days from 1970-01-01 to the date,
after resolving UTC and one parse against the template "2006-01-02"; for
"2023-01-01" that is 1672531200. -/
theorem normalize_calendar_date (w : World) (y m d : Nat) (hv : validDate y m d) :
    normalize (goRuntime w)
        { unix := 0, unixMilli := 0, unixMicro := 0, in_ := isoDate y m d, timezone := "UTC" }
      = (.ok (86400 * daysFromEpoch y m d),
          [.loadLocation "UTC", .parseInLocation "2006-01-02" (isoDate y m d) utcLoc]) ∧
    isoDate 2023 1 1 = "2023-01-01" ∧ 86400 * daysFromEpoch 2023 1 1 = 1672531200 := by
  refine ⟨?_, by decide, ?_⟩
  · have hlen : (isoDate y m d).utf8ByteSize = "2006-01-02".utf8ByteSize := by
      rw [isoDate_byteSize y m d hv.1 (by have := hv.2.2.1; omega)
        (by have := le_trans hv.2.2.2.2 (daysInMonth_le y m); omega)]
      decide
    have hparse := parsePartialDate_of_length (goRuntime w) (isoDate y m d) utcLoc
      "2006-01-02" (by decide) hlen
    have hp : (goRuntime w).parseInLocation "2006-01-02" (isoDate y m d) utcLoc
        = .ok (Date y m d 0 0 0 0 utcLoc) := parseInLocation_isoDate y m d utcLoc hv
    have hsec : (goRuntime w).timeUnix (Date y m d 0 0 0 0 utcLoc)
        = 86400 * daysFromEpoch y m d :=
      date_sec y m d hv.1 hv.2.1 hv.2.2.1 hv.2.2.2.1 hv.2.2.2.2
    simp only [parseOutcome, hp, hsec] at hparse
    simp only [normalize, isoDate_ne_empty, if_false, ne_eq, not_true_eq_false,
      getLocation_utc, hparse, List.singleton_append]
  · simp only [daysFromEpoch, dayNumber_epoch, dayNumber, sum_daysInYear]
    decide

theorem normalize_calendar_date_witness :
    normalize (goRuntime sampleWorld)
        { unix := 0, unixMilli := 0, unixMicro := 0, in_ := isoDate 2024 2 29,
          timezone := "UTC" }
      = (.ok (86400 * daysFromEpoch 2024 2 29),
          [.loadLocation "UTC", .parseInLocation "2006-01-02" (isoDate 2024 2 29) utcLoc]) :=
  (normalize_calendar_date sampleWorld 2024 2 29
    ⟨by decide, by decide, by decide, by decide, by decide⟩).1

/-! ## What a successful parse says about the value -/

theorem isDigit_of_isDigitChar (c : Char) (h : isDigitChar c = true) : c.isDigit = true := by
  rw [isDigitChar_iff] at h
  have h1 : (48 : UInt32) ≤ c.val := by
    rw [UInt32.le_def]
    show 48 ≤ c.toNat
    exact h.1
  have h2 : c.val ≤ (57 : UInt32) := by
    rw [UInt32.le_def]
    show c.toNat ≤ 57
    exact h.2
  simp only [Char.isDigit, ge_iff_le, Bool.and_eq_true, decide_eq_true_eq]
  exact ⟨h1, h2⟩

theorem digit_ascii (c : Char) (h : isDigitChar c = true) : c.toNat < 128 := by
  rw [isDigitChar_iff] at h
  omega

/-- The elements of the date part, `2006-01-02`, take four digits, a dash, two
digits, a dash and two digits off the value. -/
theorem datePart_inv (fuel : Nat) (rest v : List Char) (fs r : Fields)
    (h : parseLoop (fuel + 3)
      ('2' :: '0' :: '0' :: '6' :: '-' :: '0' :: '1' :: '-' :: '0' :: '2' :: rest) v fs = .ok r) :
    ∃ a b c d e f g i v2 fs2, v = a :: b :: c :: d :: '-' :: e :: f :: '-' :: g :: i :: v2 ∧
      isDigitChar a = true ∧ isDigitChar b = true ∧ isDigitChar c = true ∧
      isDigitChar d = true ∧ isDigitChar e = true ∧ isDigitChar f = true ∧
      isDigitChar g = true ∧ isDigitChar i = true ∧ parseLoop fuel rest v2 fs2 = .ok r := by
  obtain ⟨v1, v2, fs2, hs, hp, hrest⟩ :=
    parseLoop_step_inv (fuel + 2) _ v fs r _ _ _ (chunk_year _) h
  rw [skip_nil] at hs
  cases hs
  obtain ⟨a, b, c, d, rfl, ha, hb, hc, hd⟩ := parseStd_year_inv _ _ _ _ _ hp
  obtain ⟨v3, v4, fs3, hs3, hp3, hrest3⟩ :=
    parseLoop_step_inv (fuel + 1) _ v2 fs2 r _ _ _ (chunk_month _) hrest
  have e3 := skip_lit_inv '-' (by decide) _ _ hs3
  subst e3
  obtain ⟨e, f, rfl, he, hf⟩ := parseStd_month_inv _ _ _ _ _ hp3
  obtain ⟨v5, v6, fs5, hs5, hp5, hrest5⟩ :=
    parseLoop_step_inv fuel _ v4 fs3 r _ _ _ (chunk_day _) hrest3
  have e5 := skip_lit_inv '-' (by decide) _ _ hs5
  subst e5
  obtain ⟨g, i, rfl, hg, hi⟩ := parseStd_day_inv _ _ _ _ _ hp5
  exact ⟨a, b, c, d, e, f, g, i, v6, fs5, rfl, ha, hb, hc, hd, he, hf, hg, hi, hrest5⟩

/-- The hour element, ` 15`: spaces, then one digit not followed by a digit, or
two digits. -/
theorem hourPart_inv (fuel : Nat) (rest v : List Char) (fs r : Fields)
    (h : parseLoop (fuel + 1) (' ' :: '1' :: '5' :: rest) v fs = .ok r) :
    ∃ v0 v2 fs2, v = ' ' :: v0 ∧ parseLoop fuel rest v2 fs2 = .ok r ∧
      ((∃ a b, cutspace v0 = a :: b :: v2 ∧ isDigitChar a = true ∧ isDigitChar b = true) ∨
       (∃ a, cutspace v0 = a :: v2 ∧ isDigitChar a = true ∧ isDigit v2 0 = false)) := by
  obtain ⟨v1, v2, fs2, hs, hp, hrest⟩ :=
    parseLoop_step_inv fuel _ v fs r _ _ _ (chunk_hour _) h
  have hh := parseStd_hour_inv _ _ _ _ _ hp
  rcases skip_space_inv _ _ hs with ⟨_, rfl⟩ | ⟨v0, rfl, rfl⟩
  · rcases hh with ⟨a, b, e, _⟩ | ⟨a, e, _⟩ <;> simp at e
  · exact ⟨v0, v2, fs2, rfl, hrest, hh⟩

/-- The minute element, `:04`: a colon and two digits. -/
theorem minutePart_inv (fuel : Nat) (rest v : List Char) (fs r : Fields)
    (h : parseLoop (fuel + 1) (':' :: '0' :: '4' :: rest) v fs = .ok r) :
    ∃ a b v2 fs2, v = ':' :: a :: b :: v2 ∧ isDigitChar a = true ∧ isDigitChar b = true ∧
      parseLoop fuel rest v2 fs2 = .ok r := by
  obtain ⟨v1, v2, fs2, hs, hp, hrest⟩ :=
    parseLoop_step_inv fuel _ v fs r _ _ _ (chunk_minute _) h
  have e := skip_lit_inv ':' (by decide) _ _ hs
  subst e
  obtain ⟨a, b, rfl, ha, hb⟩ := parseStd_minute_inv _ _ _ _ _ hp
  exact ⟨a, b, v2, fs2, rfl, ha, hb, hrest⟩

/-- The seconds element at the end of the layout, `:05`: a colon and two
digits, and then nothing or at least two more bytes. -/
theorem secondEnd_inv (fuel : Nat) (v : List Char) (fs r : Fields)
    (h : parseLoop (fuel + 2) [':', '0', '5'] v fs = .ok r) :
    ∃ a b w, v = ':' :: a :: b :: w ∧ isDigitChar a = true ∧ isDigitChar b = true ∧
      (w = [] ∨ 2 ≤ w.length) := by
  obtain ⟨v1, v2, fs2, hs, hp, hrest⟩ :=
    parseLoop_step_inv (fuel + 1) _ v fs r _ _ _ (chunk_second _) h
  have e := skip_lit_inv ':' (by decide) _ _ hs
  subst e
  have hend := parseLoop_end_inv fuel _ _ _ hrest
  subst hend
  obtain ⟨a, b, w, rfl, ha, hb, hw⟩ := parseStd_second_inv _ _ _ _ _ hp
  refine ⟨a, b, w, rfl, ha, hb, ?_⟩
  rcases hw with hw | ⟨_, n, hn1, hn2, _⟩
  · exact Or.inl hw.symm
  · exact Or.inr (le_trans hn1 hn2)

/-- The seconds and fraction elements, `:05.000`: a colon, two digits, a period
or comma, and three bytes that are three digits or a sign and two digits. -/
theorem secondFrac_inv (fuel : Nat) (v : List Char) (fs r : Fields)
    (h : parseLoop (fuel + 3) [':', '0', '5', '.', '0', '0', '0'] v fs = .ok r) :
    ∃ a b f g x y, v = [':', a, b, f, g, x, y] ∧ isDigitChar a = true ∧
      isDigitChar b = true ∧ commaOrPeriod f = true ∧
      (isDigitChar g = true ∨ g = '+' ∨ g = '-') ∧ isDigitChar x = true ∧
      isDigitChar y = true := by
  obtain ⟨v1, v2, fs2, hs, hp, hrest⟩ :=
    parseLoop_step_inv (fuel + 2) _ v fs r _ _ _ (chunk_second _) h
  have e := skip_lit_inv ':' (by decide) _ _ hs
  subst e
  obtain ⟨a, b, w, rfl, ha, hb, hw⟩ := parseStd_second_inv _ _ _ _ _ hp
  have hw2 : v2 = w := by
    rcases hw with hw | ⟨hno, _⟩
    · exact hw
    · exact absurd (by rw [chunk_frac]) (hno 3)
  subst hw2
  obtain ⟨v3, v4, fs3, hs3, hp3, hrest3⟩ :=
    parseLoop_step_inv (fuel + 1) _ v2 fs2 r _ _ _ chunk_frac hrest
  rw [skip_nil] at hs3
  cases hs3
  have hend := parseLoop_end_inv fuel _ _ _ hrest3
  subst hend
  obtain ⟨f, g, x, y, rfl, hf, hg, hx, hy⟩ := parseStd_frac_inv _ _ _ _ _ hp3
  exact ⟨a, b, f, g, x, y, rfl, ha, hb, hf, hg, hx, hy⟩

/-! ## Byte lengths -/

theorem utf8Size_pos (c : Char) : 1 ≤ c.utf8Size := Char.utf8Size_pos c

theorem go_cons (c : Char) (cs : List Char) :
    String.utf8ByteSize.go (c :: cs) = String.utf8ByteSize.go cs + c.utf8Size := rfl

theorem go_ge_length (cs : List Char) : cs.length ≤ String.utf8ByteSize.go cs := by
  induction cs with
  | nil => exact le_refl 0
  | cons c cs ih =>
    rw [go_cons, List.length_cons]
    have := utf8Size_pos c
    omega

theorem go_digit (c : Char) (cs : List Char) (h : isDigitChar c = true) :
    String.utf8ByteSize.go (c :: cs) = String.utf8ByteSize.go cs + 1 := by
  rw [go_cons, utf8Size_of_ascii c (digit_ascii c h)]

theorem go_dash (cs : List Char) :
    String.utf8ByteSize.go ('-' :: cs) = String.utf8ByteSize.go cs + 1 := rfl

theorem go_space (cs : List Char) :
    String.utf8ByteSize.go (' ' :: cs) = String.utf8ByteSize.go cs + 1 := rfl

theorem go_colon (cs : List Char) :
    String.utf8ByteSize.go (':' :: cs) = String.utf8ByteSize.go cs + 1 := rfl

/-- A value is its leading spaces followed by what `cutspace` leaves. -/
theorem cutspace_spaces (l : List Char) :
    ∃ k, l = List.replicate k ' ' ++ cutspace l ∧
      String.utf8ByteSize.go l = k + String.utf8ByteSize.go (cutspace l) := by
  induction l with
  | nil => exact ⟨0, rfl, by simp [cutspace]⟩
  | cons c cs ih =>
    by_cases hc : c = ' '
    · subst hc
      obtain ⟨k, hk, hb⟩ := ih
      refine ⟨k + 1, ?_, ?_⟩
      · have e : cutspace (' ' :: cs) = cutspace cs := by simp [cutspace]
        rw [e, List.replicate_succ, List.cons_append, ← hk]
      · have e : cutspace (' ' :: cs) = cutspace cs := by simp [cutspace]
        rw [e, go_space, hb]
        omega
    · refine ⟨0, ?_, ?_⟩
      · have e : cutspace (c :: cs) = c :: cs := by simp [cutspace, hc]
        rw [e]
        rfl
      · have e : cutspace (c :: cs) = c :: cs := by simp [cutspace, hc]
        rw [e]
        omega

theorem parseInLocation_ok (layout s : String) (loc : Location) (t : Time)
    (h : ParseInLocation layout s loc = .ok t) :
    ∃ fs, parseLoop (layout.data.length + 1) layout.data s.data Fields.init = .ok fs := by
  unfold ParseInLocation at h
  cases hl : parseLoop (layout.data.length + 1) layout.data s.data Fields.init with
  | error e => rw [hl] at h; simp at h
  | ok fs => exact ⟨fs, rfl⟩

theorem accepted_of_matches (s p : String) (hp : p ∈ supportedShapes ++ lenientShapes)
    (h : matchesShape s.data p.data = true) : hasAcceptedShape s = true := by
  unfold hasAcceptedShape
  rw [List.any_eq_true]
  exact ⟨p, hp, h⟩

theorem matches_digit (c : Char) (cs ps : List Char) (h : isDigitChar c = true) :
    matchesShape (c :: cs) ('d' :: ps) = matchesShape cs ps := by
  simp [matchesShape, isDigit_of_isDigitChar c h]

theorem matches_dash (cs ps : List Char) :
    matchesShape ('-' :: cs) ('-' :: ps) = matchesShape cs ps := by
  simp [matchesShape]

theorem matches_space (cs ps : List Char) :
    matchesShape (' ' :: cs) (' ' :: ps) = matchesShape cs ps := by
  simp [matchesShape]

theorem matches_colon (cs ps : List Char) :
    matchesShape (':' :: cs) (':' :: ps) = matchesShape cs ps := by
  simp [matchesShape]

theorem matches_sep (c : Char) (cs ps : List Char) (h : commaOrPeriod c = true) :
    matchesShape (c :: cs) ('f' :: ps) = matchesShape cs ps := by
  simp only [commaOrPeriod, decide_eq_true_eq] at h
  rcases h with rfl | rfl <;> simp [matchesShape]

theorem matches_sign (c : Char) (cs ps : List Char)
    (h : isDigitChar c = true ∨ c = '+' ∨ c = '-') :
    matchesShape (c :: cs) ('g' :: ps) = matchesShape cs ps := by
  rcases h with h | rfl | rfl
  · simp [matchesShape, isDigit_of_isDigitChar c h]
  · simp [matchesShape]
  · simp [matchesShape]

theorem matches_nil : matchesShape [] [] = true := rfl

/-! ## The shapes behind each template -/

/-- With the byte budget of a two-byte hour, the hour is two digits after one
space or one digit after two spaces. -/
theorem hour_shapes (v0 T : List Char)
    (hb : String.utf8ByteSize.go v0 = 2 + String.utf8ByteSize.go T)
    (hh : (∃ a b, cutspace v0 = a :: b :: T ∧ isDigitChar a = true ∧ isDigitChar b = true) ∨
      (∃ a, cutspace v0 = a :: T ∧ isDigitChar a = true ∧ isDigit T 0 = false)) :
    (∃ a b, v0 = a :: b :: T ∧ isDigitChar a = true ∧ isDigitChar b = true) ∨
    (∃ a, v0 = ' ' :: a :: T ∧ isDigitChar a = true) := by
  obtain ⟨k, hk, hbk⟩ := cutspace_spaces v0
  rcases hh with ⟨a, b, hc, ha, hb2⟩ | ⟨a, hc, ha, _⟩
  · left
    rw [hc, go_digit a _ ha, go_digit b _ hb2] at hbk
    have hk0 : k = 0 := by omega
    subst hk0
    rw [hc] at hk
    exact ⟨a, b, by simpa using hk, ha, hb2⟩
  · right
    rw [hc, go_digit a _ ha] at hbk
    have hk1 : k = 1 := by omega
    subst hk1
    rw [hc] at hk
    exact ⟨a, by simpa using hk, ha⟩

theorem shape_year (s : String) (loc : Location) (t : Time)
    (h : ParseInLocation "2006" s loc = .ok t) : hasAcceptedShape s = true := by
  obtain ⟨fs, hl⟩ := parseInLocation_ok _ _ _ _ h
  have hl2 : parseLoop (4 + 1) ['2', '0', '0', '6'] s.data Fields.init = .ok fs := hl
  obtain ⟨v1, v2, fs2, hs, hp, hrest⟩ :=
    parseLoop_step_inv 4 _ _ _ _ _ _ _ (chunk_year _) hl2
  rw [skip_nil] at hs
  cases hs
  obtain ⟨a, b, c, d, hd, ha, hb, hc, hdd⟩ := parseStd_year_inv _ _ _ _ _ hp
  have hend := parseLoop_end_inv 3 _ _ _ hrest
  subst hend
  refine accepted_of_matches s "dddd" (by decide) ?_
  rw [hd]
  show matchesShape [a, b, c, d] ['d', 'd', 'd', 'd'] = true
  rw [matches_digit _ _ _ ha, matches_digit _ _ _ hb, matches_digit _ _ _ hc,
    matches_digit _ _ _ hdd]
  rfl

theorem shape_month (s : String) (loc : Location) (t : Time)
    (h : ParseInLocation "2006-01" s loc = .ok t) : hasAcceptedShape s = true := by
  obtain ⟨fs, hl⟩ := parseInLocation_ok _ _ _ _ h
  have hl2 : parseLoop (7 + 1) ['2', '0', '0', '6', '-', '0', '1'] s.data Fields.init
      = .ok fs := hl
  obtain ⟨v1, v2, fs2, hs, hp, hrest⟩ :=
    parseLoop_step_inv 7 _ _ _ _ _ _ _ (chunk_year _) hl2
  rw [skip_nil] at hs
  cases hs
  obtain ⟨a, b, c, d, hd, ha, hb, hc, hdd⟩ := parseStd_year_inv _ _ _ _ _ hp
  obtain ⟨v3, v4, fs3, hs3, hp3, hrest3⟩ :=
    parseLoop_step_inv 6 _ _ _ _ _ _ _ (chunk_month _) hrest
  have e3 := skip_lit_inv '-' (by decide) _ _ hs3
  subst e3
  obtain ⟨e, f, rfl, he, hf⟩ := parseStd_month_inv _ _ _ _ _ hp3
  have hend := parseLoop_end_inv 5 _ _ _ hrest3
  subst hend
  refine accepted_of_matches s "dddd-dd" (by decide) ?_
  rw [hd]
  show matchesShape [a, b, c, d, '-', e, f] ['d', 'd', 'd', 'd', '-', 'd', 'd'] = true
  rw [matches_digit _ _ _ ha, matches_digit _ _ _ hb, matches_digit _ _ _ hc,
    matches_digit _ _ _ hdd, matches_dash, matches_digit _ _ _ he, matches_digit _ _ _ hf]
  rfl

theorem shape_day (s : String) (loc : Location) (t : Time)
    (h : ParseInLocation "2006-01-02" s loc = .ok t) : hasAcceptedShape s = true := by
  obtain ⟨fs, hl⟩ := parseInLocation_ok _ _ _ _ h
  have hl2 : parseLoop (8 + 3) ['2', '0', '0', '6', '-', '0', '1', '-', '0', '2'] s.data
      Fields.init = .ok fs := hl
  obtain ⟨a, b, c, d, e, f, g, i, v2, fs2, hd, ha, hb, hc, hdd, he, hf, hg, hi, hrest⟩ :=
    datePart_inv 8 _ _ _ _ hl2
  have hend := parseLoop_end_inv 7 _ _ _ hrest
  subst hend
  refine accepted_of_matches s "dddd-dd-dd" (by decide) ?_
  rw [hd]
  show matchesShape [a, b, c, d, '-', e, f, '-', g, i]
    ['d', 'd', 'd', 'd', '-', 'd', 'd', '-', 'd', 'd'] = true
  rw [matches_digit _ _ _ ha, matches_digit _ _ _ hb, matches_digit _ _ _ hc,
    matches_digit _ _ _ hdd, matches_dash, matches_digit _ _ _ he, matches_digit _ _ _ hf,
    matches_dash, matches_digit _ _ _ hg, matches_digit _ _ _ hi]
  rfl

/-- The bytes of a value that starts with the date part and a space. -/
theorem go_date_space (a b c d e f g i : Char) (v0 : List Char)
    (ha : isDigitChar a = true) (hb : isDigitChar b = true) (hc : isDigitChar c = true)
    (hd : isDigitChar d = true) (he : isDigitChar e = true) (hf : isDigitChar f = true)
    (hg : isDigitChar g = true) (hi : isDigitChar i = true) :
    String.utf8ByteSize.go (a :: b :: c :: d :: '-' :: e :: f :: '-' :: g :: i :: ' ' :: v0)
      = String.utf8ByteSize.go v0 + 11 := by
  rw [go_digit _ _ ha, go_digit _ _ hb, go_digit _ _ hc, go_digit _ _ hd, go_dash,
    go_digit _ _ he, go_digit _ _ hf, go_dash, go_digit _ _ hg, go_digit _ _ hi, go_space]

theorem shape_hour (s : String) (loc : Location) (t : Time)
    (h : ParseInLocation "2006-01-02 15" s loc = .ok t) (hlen : s.utf8ByteSize = 13) :
    hasAcceptedShape s = true := by
  obtain ⟨fs, hl⟩ := parseInLocation_ok _ _ _ _ h
  have hl2 : parseLoop (11 + 3)
      ['2', '0', '0', '6', '-', '0', '1', '-', '0', '2', ' ', '1', '5'] s.data
      Fields.init = .ok fs := hl
  obtain ⟨a, b, c, d, e, f, g, i, v2, fs2, hd, ha, hb, hc, hdd, he, hf, hg, hi, hrest⟩ :=
    datePart_inv 11 _ _ _ _ hl2
  obtain ⟨v0, v3, fs3, rfl, hrest3, hh⟩ := hourPart_inv 10 _ _ _ _ hrest
  have hend := parseLoop_end_inv 9 _ _ _ hrest3
  subst hend
  have hbytes : String.utf8ByteSize.go s.data = 13 := hlen
  rw [hd, go_date_space a b c d e f g i v0 ha hb hc hdd he hf hg hi] at hbytes
  have hb0 : String.utf8ByteSize.go v0 = 2 + String.utf8ByteSize.go ([] : List Char) := by
    have : String.utf8ByteSize.go ([] : List Char) = 0 := rfl
    omega
  rcases hour_shapes v0 [] hb0 hh with ⟨x, y, rfl, hx, hy⟩ | ⟨x, rfl, hx⟩
  · refine accepted_of_matches s "dddd-dd-dd dd" (by decide) ?_
    rw [hd]
    show matchesShape [a, b, c, d, '-', e, f, '-', g, i, ' ', x, y]
      ['d', 'd', 'd', 'd', '-', 'd', 'd', '-', 'd', 'd', ' ', 'd', 'd'] = true
    rw [matches_digit _ _ _ ha, matches_digit _ _ _ hb, matches_digit _ _ _ hc,
      matches_digit _ _ _ hdd, matches_dash, matches_digit _ _ _ he, matches_digit _ _ _ hf,
      matches_dash, matches_digit _ _ _ hg, matches_digit _ _ _ hi, matches_space,
      matches_digit _ _ _ hx, matches_digit _ _ _ hy]
    rfl
  · refine accepted_of_matches s "dddd-dd-dd  d" (by decide) ?_
    rw [hd]
    show matchesShape [a, b, c, d, '-', e, f, '-', g, i, ' ', ' ', x]
      ['d', 'd', 'd', 'd', '-', 'd', 'd', '-', 'd', 'd', ' ', ' ', 'd'] = true
    rw [matches_digit _ _ _ ha, matches_digit _ _ _ hb, matches_digit _ _ _ hc,
      matches_digit _ _ _ hdd, matches_dash, matches_digit _ _ _ he, matches_digit _ _ _ hf,
      matches_dash, matches_digit _ _ _ hg, matches_digit _ _ _ hi, matches_space,
      matches_space, matches_digit _ _ _ hx]
    rfl

theorem shape_minute (s : String) (loc : Location) (t : Time)
    (h : ParseInLocation "2006-01-02 15:04" s loc = .ok t) (hlen : s.utf8ByteSize = 16) :
    hasAcceptedShape s = true := by
  obtain ⟨fs, hl⟩ := parseInLocation_ok _ _ _ _ h
  have hl2 : parseLoop (14 + 3)
      ['2', '0', '0', '6', '-', '0', '1', '-', '0', '2', ' ', '1', '5', ':', '0', '4'] s.data
      Fields.init = .ok fs := hl
  obtain ⟨a, b, c, d, e, f, g, i, v2, fs2, hd, ha, hb, hc, hdd, he, hf, hg, hi, hrest⟩ :=
    datePart_inv 14 _ _ _ _ hl2
  obtain ⟨v0, v3, fs3, rfl, hrest3, hh⟩ := hourPart_inv 13 _ _ _ _ hrest
  obtain ⟨m1, m2, v4, fs4, rfl, hm1, hm2, hrest4⟩ := minutePart_inv 12 _ _ _ _ hrest3
  have hend := parseLoop_end_inv 11 _ _ _ hrest4
  subst hend
  have hbytes : String.utf8ByteSize.go s.data = 16 := hlen
  rw [hd, go_date_space a b c d e f g i v0 ha hb hc hdd he hf hg hi] at hbytes
  have hT : String.utf8ByteSize.go [':', m1, m2] = 3 := by
    rw [go_colon, go_digit _ _ hm1, go_digit _ _ hm2]
    rfl
  have hb0 : String.utf8ByteSize.go v0 = 2 + String.utf8ByteSize.go [':', m1, m2] := by
    omega
  rcases hour_shapes v0 _ hb0 hh with ⟨x, y, rfl, hx, hy⟩ | ⟨x, rfl, hx⟩
  · refine accepted_of_matches s "dddd-dd-dd dd:dd" (by decide) ?_
    rw [hd]
    show matchesShape [a, b, c, d, '-', e, f, '-', g, i, ' ', x, y, ':', m1, m2]
      ['d', 'd', 'd', 'd', '-', 'd', 'd', '-', 'd', 'd', ' ', 'd', 'd', ':', 'd', 'd'] = true
    rw [matches_digit _ _ _ ha, matches_digit _ _ _ hb, matches_digit _ _ _ hc,
      matches_digit _ _ _ hdd, matches_dash, matches_digit _ _ _ he, matches_digit _ _ _ hf,
      matches_dash, matches_digit _ _ _ hg, matches_digit _ _ _ hi, matches_space,
      matches_digit _ _ _ hx, matches_digit _ _ _ hy, matches_colon,
      matches_digit _ _ _ hm1, matches_digit _ _ _ hm2]
    rfl
  · refine accepted_of_matches s "dddd-dd-dd  d:dd" (by decide) ?_
    rw [hd]
    show matchesShape [a, b, c, d, '-', e, f, '-', g, i, ' ', ' ', x, ':', m1, m2]
      ['d', 'd', 'd', 'd', '-', 'd', 'd', '-', 'd', 'd', ' ', ' ', 'd', ':', 'd', 'd'] = true
    rw [matches_digit _ _ _ ha, matches_digit _ _ _ hb, matches_digit _ _ _ hc,
      matches_digit _ _ _ hdd, matches_dash, matches_digit _ _ _ he, matches_digit _ _ _ hf,
      matches_dash, matches_digit _ _ _ hg, matches_digit _ _ _ hi, matches_space,
      matches_space, matches_digit _ _ _ hx, matches_colon,
      matches_digit _ _ _ hm1, matches_digit _ _ _ hm2]
    rfl

theorem go_sep (c : Char) (cs : List Char) (h : commaOrPeriod c = true) :
    String.utf8ByteSize.go (c :: cs) = String.utf8ByteSize.go cs + 1 := by
  simp only [commaOrPeriod, decide_eq_true_eq] at h
  rcases h with rfl | rfl <;> rfl

theorem go_sign (c : Char) (cs : List Char) (h : isDigitChar c = true ∨ c = '+' ∨ c = '-') :
    String.utf8ByteSize.go (c :: cs) = String.utf8ByteSize.go cs + 1 := by
  rcases h with h | rfl | rfl
  · exact go_digit c cs h
  · rfl
  · rfl

theorem shape_second (s : String) (loc : Location) (t : Time)
    (h : ParseInLocation "2006-01-02 15:04:05" s loc = .ok t) (hlen : s.utf8ByteSize = 19) :
    hasAcceptedShape s = true := by
  obtain ⟨fs, hl⟩ := parseInLocation_ok _ _ _ _ h
  have hl2 : parseLoop (17 + 3)
      ['2', '0', '0', '6', '-', '0', '1', '-', '0', '2', ' ', '1', '5', ':', '0', '4', ':',
        '0', '5'] s.data Fields.init = .ok fs := hl
  obtain ⟨a, b, c, d, e, f, g, i, v2, fs2, hd, ha, hb, hc, hdd, he, hf, hg, hi, hrest⟩ :=
    datePart_inv 17 _ _ _ _ hl2
  obtain ⟨v0, v3, fs3, rfl, hrest3, hh⟩ := hourPart_inv 16 _ _ _ _ hrest
  obtain ⟨m1, m2, v4, fs4, rfl, hm1, hm2, hrest4⟩ := minutePart_inv 15 _ _ _ _ hrest3
  obtain ⟨s1, s2, w, rfl, hs1, hs2, hw⟩ := secondEnd_inv 13 _ _ _ hrest4
  have hbytes : String.utf8ByteSize.go s.data = 19 := hlen
  rw [hd, go_date_space a b c d e f g i v0 ha hb hc hdd he hf hg hi] at hbytes
  have hT : String.utf8ByteSize.go (':' :: m1 :: m2 :: ':' :: s1 :: s2 :: w)
      = String.utf8ByteSize.go w + 6 := by
    rw [go_colon, go_digit _ _ hm1, go_digit _ _ hm2, go_colon, go_digit _ _ hs1,
      go_digit _ _ hs2]
  have hw0 : w = [] := by
    rcases hw with hw | hw
    · exact hw
    · exfalso
      have hge := go_ge_length w
      obtain ⟨k, _, hbk⟩ := cutspace_spaces v0
      rcases hh with ⟨x, y, hcx, hx, hy⟩ | ⟨x, hcx, hx, _⟩
      · rw [hcx, go_digit _ _ hx, go_digit _ _ hy, hT] at hbk
        omega
      · rw [hcx, go_digit _ _ hx, hT] at hbk
        omega
  subst hw0
  have hb0 : String.utf8ByteSize.go v0
      = 2 + String.utf8ByteSize.go [':', m1, m2, ':', s1, s2] := by
    have : String.utf8ByteSize.go ([] : List Char) = 0 := rfl
    omega
  rcases hour_shapes v0 _ hb0 hh with ⟨x, y, rfl, hx, hy⟩ | ⟨x, rfl, hx⟩
  · refine accepted_of_matches s "dddd-dd-dd dd:dd:dd" (by decide) ?_
    rw [hd]
    show matchesShape [a, b, c, d, '-', e, f, '-', g, i, ' ', x, y, ':', m1, m2, ':', s1, s2]
      ['d', 'd', 'd', 'd', '-', 'd', 'd', '-', 'd', 'd', ' ', 'd', 'd', ':', 'd', 'd', ':',
        'd', 'd'] = true
    rw [matches_digit _ _ _ ha, matches_digit _ _ _ hb, matches_digit _ _ _ hc,
      matches_digit _ _ _ hdd, matches_dash, matches_digit _ _ _ he, matches_digit _ _ _ hf,
      matches_dash, matches_digit _ _ _ hg, matches_digit _ _ _ hi, matches_space,
      matches_digit _ _ _ hx, matches_digit _ _ _ hy, matches_colon,
      matches_digit _ _ _ hm1, matches_digit _ _ _ hm2, matches_colon,
      matches_digit _ _ _ hs1, matches_digit _ _ _ hs2]
    rfl
  · refine accepted_of_matches s "dddd-dd-dd  d:dd:dd" (by decide) ?_
    rw [hd]
    show matchesShape [a, b, c, d, '-', e, f, '-', g, i, ' ', ' ', x, ':', m1, m2, ':', s1, s2]
      ['d', 'd', 'd', 'd', '-', 'd', 'd', '-', 'd', 'd', ' ', ' ', 'd', ':', 'd', 'd', ':',
        'd', 'd'] = true
    rw [matches_digit _ _ _ ha, matches_digit _ _ _ hb, matches_digit _ _ _ hc,
      matches_digit _ _ _ hdd, matches_dash, matches_digit _ _ _ he, matches_digit _ _ _ hf,
      matches_dash, matches_digit _ _ _ hg, matches_digit _ _ _ hi, matches_space,
      matches_space, matches_digit _ _ _ hx, matches_colon,
      matches_digit _ _ _ hm1, matches_digit _ _ _ hm2, matches_colon,
      matches_digit _ _ _ hs1, matches_digit _ _ _ hs2]
    rfl

theorem shape_milli (s : String) (loc : Location) (t : Time)
    (h : ParseInLocation "2006-01-02 15:04:05.000" s loc = .ok t)
    (hlen : s.utf8ByteSize = 23) : hasAcceptedShape s = true := by
  obtain ⟨fs, hl⟩ := parseInLocation_ok _ _ _ _ h
  have hl2 : parseLoop (21 + 3)
      ['2', '0', '0', '6', '-', '0', '1', '-', '0', '2', ' ', '1', '5', ':', '0', '4', ':',
        '0', '5', '.', '0', '0', '0'] s.data Fields.init = .ok fs := hl
  obtain ⟨a, b, c, d, e, f, g, i, v2, fs2, hd, ha, hb, hc, hdd, he, hf, hg, hi, hrest⟩ :=
    datePart_inv 21 _ _ _ _ hl2
  obtain ⟨v0, v3, fs3, rfl, hrest3, hh⟩ := hourPart_inv 20 _ _ _ _ hrest
  obtain ⟨m1, m2, v4, fs4, rfl, hm1, hm2, hrest4⟩ := minutePart_inv 19 _ _ _ _ hrest3
  obtain ⟨s1, s2, p, q, x1, x2, rfl, hs1, hs2, hp, hq, hx1, hx2⟩ :=
    secondFrac_inv 16 _ _ _ hrest4
  have hbytes : String.utf8ByteSize.go s.data = 23 := hlen
  rw [hd, go_date_space a b c d e f g i v0 ha hb hc hdd he hf hg hi] at hbytes
  have hT : String.utf8ByteSize.go [':', m1, m2, ':', s1, s2, p, q, x1, x2] = 10 := by
    rw [go_colon, go_digit _ _ hm1, go_digit _ _ hm2, go_colon, go_digit _ _ hs1,
      go_digit _ _ hs2, go_sep _ _ hp, go_sign _ _ hq, go_digit _ _ hx1, go_digit _ _ hx2]
    rfl
  have hb0 : String.utf8ByteSize.go v0
      = 2 + String.utf8ByteSize.go [':', m1, m2, ':', s1, s2, p, q, x1, x2] := by
    omega
  rcases hour_shapes v0 _ hb0 hh with ⟨x, y, rfl, hx, hy⟩ | ⟨x, rfl, hx⟩
  · refine accepted_of_matches s "dddd-dd-dd dd:dd:ddfgdd" (by decide) ?_
    rw [hd]
    show matchesShape
      [a, b, c, d, '-', e, f, '-', g, i, ' ', x, y, ':', m1, m2, ':', s1, s2, p, q, x1, x2]
      ['d', 'd', 'd', 'd', '-', 'd', 'd', '-', 'd', 'd', ' ', 'd', 'd', ':', 'd', 'd', ':',
        'd', 'd', 'f', 'g', 'd', 'd'] = true
    rw [matches_digit _ _ _ ha, matches_digit _ _ _ hb, matches_digit _ _ _ hc,
      matches_digit _ _ _ hdd, matches_dash, matches_digit _ _ _ he, matches_digit _ _ _ hf,
      matches_dash, matches_digit _ _ _ hg, matches_digit _ _ _ hi, matches_space,
      matches_digit _ _ _ hx, matches_digit _ _ _ hy, matches_colon,
      matches_digit _ _ _ hm1, matches_digit _ _ _ hm2, matches_colon,
      matches_digit _ _ _ hs1, matches_digit _ _ _ hs2, matches_sep _ _ _ hp,
      matches_sign _ _ _ hq, matches_digit _ _ _ hx1, matches_digit _ _ _ hx2]
    rfl
  · refine accepted_of_matches s "dddd-dd-dd  d:dd:ddfgdd" (by decide) ?_
    rw [hd]
    show matchesShape
      [a, b, c, d, '-', e, f, '-', g, i, ' ', ' ', x, ':', m1, m2, ':', s1, s2, p, q, x1, x2]
      ['d', 'd', 'd', 'd', '-', 'd', 'd', '-', 'd', 'd', ' ', ' ', 'd', ':', 'd', 'd', ':',
        'd', 'd', 'f', 'g', 'd', 'd'] = true
    rw [matches_digit _ _ _ ha, matches_digit _ _ _ hb, matches_digit _ _ _ hc,
      matches_digit _ _ _ hdd, matches_dash, matches_digit _ _ _ he, matches_digit _ _ _ hf,
      matches_dash, matches_digit _ _ _ hg, matches_digit _ _ _ hi, matches_space,
      matches_space, matches_digit _ _ _ hx, matches_colon,
      matches_digit _ _ _ hm1, matches_digit _ _ _ hm2, matches_colon,
      matches_digit _ _ _ hs1, matches_digit _ _ _ hs2, matches_sep _ _ _ hp,
      matches_sign _ _ _ hq, matches_digit _ _ _ hx1, matches_digit _ _ _ hx2]
    rfl

theorem supported_accepted (s : String) (h : hasSupportedShape s = true) :
    hasAcceptedShape s = true := by
  unfold hasSupportedShape at h
  unfold hasAcceptedShape
  rw [List.any_append, h]
  rfl

/-- A successful library parse against the template of the string's length
means the string has an accepted shape. -/
theorem accepted_of_parse (s : String) (loc : Location) (t : Time) :
    ∀ f ∈ formats, s.utf8ByteSize = f.utf8ByteSize → ParseInLocation f s loc = .ok t →
      hasAcceptedShape s = true := by
  intro f hf hlen hp
  simp only [formats, List.mem_cons, List.mem_singleton, List.not_mem_nil, or_false] at hf
  rcases hf with rfl | rfl | rfl | rfl | rfl | rfl | rfl
  · exact shape_year s loc t hp
  · exact shape_month s loc t hp
  · exact shape_day s loc t hp
  · exact shape_hour s loc t hp hlen
  · exact shape_minute s loc t hp hlen
  · exact shape_second s loc t hp hlen
  · exact shape_milli s loc t hp hlen

/-- C6 (amended): for every location, `parsePartialDate` fails with the
InvalidDateFormat error on every string that has none of the seven supported
shapes and none of the five lenient ones, which are: YYYY-MM-DD HH,
YYYY-MM-DD HH:MM, YYYY-MM-DD HH:MM:SS and YYYY-MM-DD HH:MM:SS.mmm with the hour
written as two spaces and one digit instead of one space and two digits;
YYYY-MM-DD HH:MM:SS.mmm with a comma in place of the period or a sign in place
of the first millisecond digit; and YYYY-MM-DD HH:MM:SS.mmm with both of these
at once, the two-space one-digit hour together with the comma or the sign.
Such a string has in particular none of the seven supported shapes. -/
theorem parsePartialDate_rejects_other_shapes (w : World) (s : String) (loc : Location)
    (hs : hasAcceptedShape s = false) :
    (parsePartialDate (goRuntime w) s loc).1 = .error (.invalidDateFormat s) ∧
    hasSupportedShape s = false := by
  refine ⟨?_, ?_⟩
  · by_cases h : ∃ f ∈ formats, s.utf8ByteSize = f.utf8ByteSize
    · obtain ⟨f, hf, hlen⟩ := h
      rw [parsePartialDate_of_length (goRuntime w) s loc f hf hlen]
      unfold parseOutcome
      cases hp : (goRuntime w).parseInLocation f s loc with
      | error e => rfl
      | ok t =>
        have hacc := accepted_of_parse s loc t f hf hlen hp
        rw [hs] at hacc
        exact Bool.noConfusion hacc
    · have hno : ∀ f ∈ formats, f.utf8ByteSize ≠ s.utf8ByteSize := by
        intro f hf e
        exact h ⟨f, hf, e.symm⟩
      have := parsePartialDateLoop_no_length (goRuntime w) s loc formats [] hno
      unfold parsePartialDate
      rw [this]
  · cases hsup : hasSupportedShape s with
    | false => rfl
    | true =>
      have := supported_accepted s hsup
      rw [hs] at this
      exact Bool.noConfusion this

theorem parsePartialDate_rejects_other_shapes_witness :
    (parsePartialDate (goRuntime sampleWorld) "not-a-date" utcLoc).1
      = .error (.invalidDateFormat "not-a-date") ∧
    (parsePartialDate (goRuntime sampleWorld) "not-a-date" utcLoc).2
      = [.parseInLocation "2006-01-02" "not-a-date" utcLoc] :=
  ⟨(parsePartialDate_rejects_other_shapes sampleWorld "not-a-date" utcLoc (by decide)).1, rfl⟩

/-- C6 (counterexample): "2023-01-01  5", with two spaces and a one-digit hour,
has none of the seven supported shapes, and `parsePartialDate` parses it
against "2006-01-02 15" to 2023-01-01 05:00:00 UTC; likewise a comma before the
milliseconds, a sign as their first character, and the two-space one-digit
hour together with the comma are parsed. -/
theorem parsePartialDate_accepts_lenient_hour :
    hasSupportedShape "2023-01-01  5" = false ∧
    parsePartialDate (goRuntime sampleWorld) "2023-01-01  5" utcLoc
      = (.ok 1672549200, [.parseInLocation "2006-01-02 15" "2023-01-01  5" utcLoc]) ∧
    hasSupportedShape "2023-01-01 15:04:05,123" = false ∧
    (parsePartialDate (goRuntime sampleWorld) "2023-01-01 15:04:05,123" utcLoc).1
      = .ok 1672585445 ∧
    hasSupportedShape "2023-01-01 15:04:05.+12" = false ∧
    (parsePartialDate (goRuntime sampleWorld) "2023-01-01 15:04:05.+12" utcLoc).1
      = .ok 1672585445 ∧
    hasSupportedShape "2023-01-01  5:04:05,123" = false ∧
    (parsePartialDate (goRuntime sampleWorld) "2023-01-01  5:04:05,123" utcLoc).1
      = .ok 1672549445 := by
  refine ⟨by decide, by rfl, by decide, by rfl, by decide, by rfl, by decide, by rfl⟩

end Tzcon
